import Mathlib

/-!
# The quv runtime core (`src/quv/vm.c`)

A shallow embedding of the runtime lifecycle and scheduler layer of quv:
the job-draining check callback, the idle/check arming rule, the run/stop
protocol, the retrying teardown and the file evaluation helper.

`vm.c` is the only file of the layer; the QuickJS engine (`deps/quickjs`) and
libuv are linked in from outside it.  Their primitives are modelled below, each
under a doc comment that says so, and the functions of `vm.c` are translated
statement by statement on top of them.
-/

namespace Quv

/-! ## Engine binding: the job queue -/

/-- A pending engine job.  `name` identifies it, `fails` tells whether its job
function ends with an exception, and `spawns` are the jobs its job function
enqueues while it runs (a finite forest: every job enqueues finitely many
further jobs). -/
inductive Job where
  | mk (name : Nat) (fails : Bool) (spawns : List Job) : Job

namespace Job

/-- Name of a job. -/
def name : Job → Nat
  | mk n _ _ => n

/-- Whether the job function ends with an exception. -/
def fails : Job → Bool
  | mk _ f _ => f

/-- Jobs the job function enqueues, in the order of its enqueue calls. -/
def spawns : Job → List Job
  | mk _ _ js => js

end Job

mutual
/-- Number of jobs in the tree below a job, itself included. -/
def Job.weight : Job → Nat
  | .mk _ _ js => 1 + weightList js
/-- Number of jobs in a forest. -/
def weightList : List Job → Nat
  | [] => 0
  | j :: js => j.weight + weightList js
end

mutual
/-- No job of the tree fails (Boolean test). -/
def Job.clean : Job → Bool
  | .mk _ f js => !f && cleanList js
/-- No job of the forest fails (Boolean test). -/
def cleanList : List Job → Bool
  | [] => true
  | j :: js => j.clean && cleanList js
end

/-- An engine context as far as `vm.c` looks at it: the exception left pending
in it, named after the job that threw it. -/
structure JSContext where
  pending_exception : Option Nat

/-- The engine runtime as far as `vm.c` looks at it: the FIFO list of pending
jobs.  `executed` and `enqueue_log` are ghost fields that record, in order, the
jobs whose job function has run and the jobs handed to `JS_EnqueueJob`. -/
structure JSRuntime where
  job_list : List Job
  executed : List Job
  enqueue_log : List Job

/-- Modelled from the spec: QuickJS `JS_NewRuntime` (deps/quickjs, not part of
vm.c); a new runtime has no pending job. -/
def JS_NewRuntime : JSRuntime :=
  { job_list := [], executed := [], enqueue_log := [] }

/-- Modelled from the spec: QuickJS `JS_EnqueueJob` (deps/quickjs, not part of
vm.c); the job is appended at the tail of the job list. -/
def JS_EnqueueJob (rt : JSRuntime) (j : Job) : JSRuntime :=
  { rt with job_list := rt.job_list ++ [j], enqueue_log := rt.enqueue_log ++ [j] }

/-- Modelled from the spec: QuickJS `JS_IsJobPending` (deps/quickjs, not part of
vm.c), "is a job pending": the job list is not empty. -/
def JS_IsJobPending (rt : JSRuntime) : Bool :=
  !rt.job_list.isEmpty

/-- Modelled from the spec: QuickJS `JS_ExecutePendingJob` (deps/quickjs, not
part of vm.c), "execute one pending job".  With an empty list it returns 0 and a
null context.  Otherwise it unlinks the first job, runs its job function (which
enqueues the job's `spawns`), and returns 1, or -1 when the job function ended
with an exception, which is then pending in the returned context. -/
def JS_ExecutePendingJob (rt : JSRuntime) : Int × Option JSContext × JSRuntime :=
  match rt.job_list with
  | [] => (0, none, rt)
  | j :: rest =>
    let rt1 : JSRuntime := { rt with job_list := rest }
    let rt2 : JSRuntime := j.spawns.foldl JS_EnqueueJob rt1
    let rt3 : JSRuntime := { rt2 with executed := rt2.executed ++ [j] }
    if j.fails then (-1, some { pending_exception := some j.name }, rt3)
    else (1, some { pending_exception := none }, rt3)

/-! ## Event loop handle set -/

/-- Flags of a libuv handle as far as the loop's liveness looks at them. -/
structure uv_handle_t where
  active : Bool
  ref : Bool
  closing : Bool
  closed : Bool
  queued : Bool

/-- The loop's own state: the stop request, and the number of handles that
other modules registered on the loop (counted as active and referenced). -/
structure uv_loop_t where
  stop_flag : Bool
  other_handles : Nat

/-- The runtime instance, `struct QUVRuntime`.  `rt` stands for the engine
runtime and its context, `pending` is the stop handle's wakeup flag.  The last
four fields are ghost fields: the errors dumped to the error stream, the number
of loop iterations run, the number of times the stop callback ran, and whether
engine runtime and context have been freed. -/
structure QUVRuntime where
  rt : JSRuntime
  loop : uv_loop_t
  check : uv_handle_t
  idle : uv_handle_t
  stop : uv_handle_t
  pending : Bool
  is_worker : Bool
  dump_log : List (Option Nat)
  iterations : Nat
  stop_calls : Nat
  engine_freed : Bool

/-- Modelled from the spec: libuv handle initialisation (`uv_idle_init`,
`uv_check_init`; libuv is not part of vm.c): the handle is put on the loop's
handle queue, referenced and not active. -/
def uv_handle_init : uv_handle_t :=
  { active := false, ref := true, closing := false, closed := false, queued := true }

/-- Modelled from the spec: libuv `uv_async_init` (not part of vm.c): an async
handle is initialised and started at once. -/
def uv_async_init : uv_handle_t :=
  { uv_handle_init with active := true }

/-- Modelled from the spec: libuv `uv_idle_start` / `uv_check_start` with a
callback (not part of vm.c): the handle becomes active; the status is 0. -/
def uv_handle_start (h : uv_handle_t) : Int × uv_handle_t :=
  (0, { h with active := true })

/-- Modelled from the spec: libuv `uv_idle_stop` (not part of vm.c): the handle
becomes inactive; the status is 0. -/
def uv_handle_stop (h : uv_handle_t) : Int × uv_handle_t :=
  (0, { h with active := false })

/-- Modelled from the spec: libuv `uv_unref` (not part of vm.c): the handle is
marked unreferenced, it no longer keeps the loop alive. -/
def uv_unref (h : uv_handle_t) : uv_handle_t :=
  { h with ref := false }

/-- Modelled from the spec: libuv `uv_close` (not part of vm.c): the handle is
stopped and its close is scheduled; it takes effect on a later loop
iteration. -/
def uv_close (h : uv_handle_t) : uv_handle_t :=
  { h with active := false, closing := true }

/-! ## Job draining (`uv__maybe_idle`, `uv__check_cb`) -/

/-- Modelled from the spec: `quv_dump_error` (declared in private.h, defined
outside vm.c): the context's pending error is printed on the error stream as a
diagnostic dump. -/
def quv_dump_error (ctx : Option JSContext) (qrt : QUVRuntime) : QUVRuntime :=
  { qrt with dump_log := qrt.dump_log ++ [ctx.bind JSContext.pending_exception] }

/-- Translation of `uv__maybe_idle`: start the idle handle when a job is
pending, stop it otherwise.  Both calls report 0, so `CHECK_EQ` passes. -/
def uv__maybe_idle (qrt : QUVRuntime) : QUVRuntime :=
  if JS_IsJobPending qrt.rt then
    { qrt with idle := (uv_handle_start qrt.idle).2 }
  else
    { qrt with idle := (uv_handle_stop qrt.idle).2 }

/-- The `for (;;)` loop of `uv__check_cb`, with a bound on the number of
rounds: execute one pending job per round, stop when none is left (`err = 0`) or
one failed (`err < 0`, its error is dumped). -/
def execute_pending_jobs : Nat → QUVRuntime → QUVRuntime
  | 0, qrt => qrt
  | n + 1, qrt =>
    let res := JS_ExecutePendingJob qrt.rt
    let err := res.1
    let ctx1 := res.2.1
    let qrt1 : QUVRuntime := { qrt with rt := res.2.2 }
    if err ≤ 0 then
      if err < 0 then quv_dump_error ctx1 qrt1 else qrt1
    else execute_pending_jobs n qrt1

/-- Translation of `uv__check_cb`: drain the job queue, then recompute the idle
handle.  Every round of the loop but the last runs one job of the finite forest
below the queue, so `weightList + 1` rounds always reach the `break`
(`execute_pending_jobs_unfold` and `execute_pending_jobs_stable` below). -/
def uv__check_cb (qrt : QUVRuntime) : QUVRuntime :=
  uv__maybe_idle (execute_pending_jobs (weightList qrt.rt.job_list + 1) qrt)

/-- The order in which the jobs of a queue run when none stops the drain: the
head of the queue, then the rest of the queue followed by what the head
enqueued (bounded by the number of jobs to list). -/
def runOrderN : Nat → List Job → List Job
  | 0, _ => []
  | _ + 1, [] => []
  | n + 1, j :: q => j :: runOrderN n (q ++ j.spawns)

/-- The run order of a queue, all of its jobs listed. -/
def runOrder (q : List Job) : List Job :=
  runOrderN (weightList q) q

/-- The queue left after the first `k` jobs of the run order have run. -/
def queueAfter : Nat → List Job → List Job
  | 0, q => q
  | _ + 1, [] => []
  | k + 1, j :: q => queueAfter k (q ++ j.spawns)

/-- The state of the instance after the first `k` jobs of the run order have
run without stopping the drain. -/
def advance (k : Nat) (qrt : QUVRuntime) : QUVRuntime :=
  { qrt with rt :=
      { job_list := queueAfter k qrt.rt.job_list
        executed := qrt.rt.executed ++ (runOrder qrt.rt.job_list).take k
        enqueue_log := qrt.rt.enqueue_log ++
          ((runOrder qrt.rt.job_list).take k).flatMap Job.spawns } }

/-- The `k`-th job of the run order (counted from 1) is the first one whose job
function fails. -/
def FirstFailureAt (q : List Job) (k : Nat) : Prop :=
  1 ≤ k ∧ k ≤ (runOrder q).length ∧
    ((runOrder q).take (k - 1)).all (fun j => !j.fails) = true ∧
    (((runOrder q).drop (k - 1)).head?.map Job.fails) = some true

instance (q : List Job) (k : Nat) : Decidable (FirstFailureAt q k) := by
  unfold FirstFailureAt; infer_instance

/-! ## The loop (`uv_run`, `uv_stop`, `uv_async_send`) -/

/-- Modelled from the spec: libuv's count of active handles (not part of
vm.c).  Only a handle that is both active and referenced keeps the loop alive;
the handles of other modules count as such. -/
def uv__has_active_handles (qrt : QUVRuntime) : Bool :=
  (qrt.check.active && qrt.check.ref) || (qrt.idle.active && qrt.idle.ref) ||
    (qrt.stop.active && qrt.stop.ref) || decide (0 < qrt.loop.other_handles)

/-- Modelled from the spec: libuv's list of handles whose close is scheduled and
not yet carried out (not part of vm.c). -/
def uv__has_closing_handles (qrt : QUVRuntime) : Bool :=
  (qrt.check.closing && !qrt.check.closed) || (qrt.idle.closing && !qrt.idle.closed) ||
    (qrt.stop.closing && !qrt.stop.closed)

/-- Modelled from the spec: libuv `uv__loop_alive` (not part of vm.c): the loop
has work while it has an active referenced handle or a close to carry out. -/
def uv__loop_alive (qrt : QUVRuntime) : Bool :=
  uv__has_active_handles qrt || uv__has_closing_handles qrt

/-- Modelled from the spec: libuv `uv_backend_timeout` (not part of vm.c): the
I/O wait does not block (timeout 0) when a stop is requested, when nothing keeps
the loop alive, when the idle handle is armed or when a close is scheduled;
otherwise it waits without limit (-1; timers belong to other modules). -/
def uv_backend_timeout (qrt : QUVRuntime) : Int :=
  if qrt.loop.stop_flag then 0
  else if !uv__has_active_handles qrt then 0
  else if qrt.idle.active then 0
  else if uv__has_closing_handles qrt then 0
  else -1

/-- Modelled from the spec: libuv `uv_stop` (not part of vm.c), the loop's stop
primitive: it sets the loop's stop request. -/
def uv_stop (loop : uv_loop_t) : uv_loop_t :=
  { loop with stop_flag := true }

/-- Translation of `uv__stop`, the callback of the stop handle: it calls the
loop's stop primitive (`stop_calls` counts the calls). -/
def uv__stop (qrt : QUVRuntime) : QUVRuntime :=
  { qrt with loop := uv_stop qrt.loop, stop_calls := qrt.stop_calls + 1 }

/-- Modelled from the spec: libuv `uv_async_send` on the stop handle (not part
of vm.c): the handle's wakeup flag is set; a send on a handle whose wakeup is
already pending changes nothing. -/
def uv_async_send (qrt : QUVRuntime) : QUVRuntime :=
  if qrt.pending then qrt else { qrt with pending := true }

/-- Modelled from the spec: the I/O wait of the loop (libuv `uv__io_poll`, not
part of vm.c) parks the thread when no wakeup is pending and the timeout is not
zero. -/
def uv__io_poll_blocks (qrt : QUVRuntime) (timeout : Int) : Bool :=
  !qrt.pending && decide (timeout ≠ 0)

/-- Modelled from the spec: what the I/O wait dispatches once it returns (libuv
`uv__io_poll`, not part of vm.c): a pending wakeup is consumed and the callback
of the stop handle runs, on the loop's own thread, if the handle is active. -/
def uv__io_poll_dispatch (qrt : QUVRuntime) : QUVRuntime :=
  if qrt.pending then
    if qrt.stop.active then uv__stop { qrt with pending := false }
    else { qrt with pending := false }
  else qrt

/-- Translation of `uv__idle_cb`: a no-op. -/
def uv__idle_cb (qrt : QUVRuntime) : QUVRuntime := qrt

/-- Modelled from the spec: libuv `uv__run_idle` (not part of vm.c): the
callback of every active idle handle runs. -/
def uv__run_idle (qrt : QUVRuntime) : QUVRuntime :=
  if qrt.idle.active then uv__idle_cb qrt else qrt

/-- Modelled from the spec: libuv `uv__run_check` (not part of vm.c): the
callback of every active check handle runs, once per iteration, after the I/O
wait. -/
def uv__run_check (qrt : QUVRuntime) : QUVRuntime :=
  if qrt.check.active then uv__check_cb qrt else qrt

/-- Modelled from the spec: the end of a handle's close (libuv
`uv__finish_close`, not part of vm.c): the handle leaves the loop's handle
queue. -/
def uv__finish_close (h : uv_handle_t) : uv_handle_t :=
  if h.closing && !h.closed then { h with closed := true, queued := false, ref := false }
  else h

/-- Modelled from the spec: libuv `uv__run_closing_handles` (not part of vm.c):
every scheduled close is carried out at the end of the iteration. -/
def uv__run_closing_handles (qrt : QUVRuntime) : QUVRuntime :=
  { qrt with check := uv__finish_close qrt.check, idle := uv__finish_close qrt.idle,
             stop := uv__finish_close qrt.stop }

/-- Modelled from the spec: the part of a loop iteration that follows the I/O
wait (libuv `uv_run`, not part of vm.c): dispatch of what the wait found, the
check phase, then the closing phase. -/
def uv_run_after_poll (qrt : QUVRuntime) : QUVRuntime :=
  let q1 := uv__io_poll_dispatch qrt
  let q2 := uv__run_check q1
  let q3 := uv__run_closing_handles q2
  { q3 with iterations := q3.iterations + 1 }

/-- What a call of the loop's run primitive comes to: it returned to its caller,
or the thread is parked in the I/O wait, with nothing on the loop that could
wake it but a signal of the stop handle from another thread. -/
inductive RunResult where
  | returned (qrt : QUVRuntime) : RunResult
  | blocked (qrt : QUVRuntime) : RunResult

/-- Modelled from the spec: libuv `uv_run` in `UV_RUN_DEFAULT` mode (not part of
vm.c), with a bound on the number of iterations: iterate while the loop is alive
and no stop is requested; on exit the stop request is cleared. -/
def uv_run_default : Nat → QUVRuntime → Option RunResult
  | 0, _ => none
  | n + 1, qrt =>
    if uv__loop_alive qrt && !qrt.loop.stop_flag then
      let q1 := uv__run_idle qrt
      if uv__io_poll_blocks q1 (uv_backend_timeout q1) then some (.blocked q1)
      else uv_run_default n (uv_run_after_poll q1)
    else some (.returned { qrt with loop := { qrt.loop with stop_flag := false } })

/-- Modelled from the spec: how a thread parked in the I/O wait goes on (libuv
`uv_run`, not part of vm.c): it stays parked until a wakeup is pending, then
finishes the iteration and iterates on. -/
def uv_run_resume (fuel : Nat) (qrt : QUVRuntime) : Option RunResult :=
  if uv__io_poll_blocks qrt (-1) then some (.blocked qrt)
  else uv_run_default fuel (uv_run_after_poll qrt)

/-- Modelled from the spec: libuv `uv_run` in `UV_RUN_NOWAIT` mode (not part of
vm.c): at most one iteration, whose I/O wait has timeout zero. -/
def uv_run_nowait (qrt : QUVRuntime) : QUVRuntime :=
  let q1 :=
    if uv__loop_alive qrt && !qrt.loop.stop_flag then
      uv_run_after_poll (uv__run_idle qrt)
    else qrt
  { q1 with loop := { q1.loop with stop_flag := false } }

/-- Modelled from the spec: libuv `uv_loop_close` (not part of vm.c): it fails
with `UV_EBUSY` (-16) while a handle is still on the loop's handle queue. -/
def uv_loop_close (qrt : QUVRuntime) : Int × QUVRuntime :=
  if qrt.check.queued || qrt.idle.queued || qrt.stop.queued ||
      decide (0 < qrt.loop.other_handles) then (-16, qrt)
  else (0, qrt)

/-! ## Runtime lifecycle (`QUV_NewRuntime2`, `QUV_Run`, `QUV_Stop`) -/

/-- Translation of `QUV_NewRuntime2`: engine runtime and context, loop, idle,
check and stop handle.  `boot_jobs` are the jobs that module registration and
the bootstrap payloads leave pending. -/
def QUV_NewRuntime2 (is_worker : Bool) (boot_jobs : List Job) : QUVRuntime :=
  { rt := boot_jobs.foldl JS_EnqueueJob JS_NewRuntime
    loop := { stop_flag := false, other_handles := 0 }
    idle := uv_handle_init
    check := uv_handle_init
    stop := uv_async_init
    pending := false
    is_worker := is_worker
    dump_log := []
    iterations := 0
    stop_calls := 0
    engine_freed := false }

/-- Translation of `QUV_NewRuntime`. -/
def QUV_NewRuntime (boot_jobs : List Job) : QUVRuntime :=
  QUV_NewRuntime2 false boot_jobs

/-- Translation of `QUV_Run` up to the call of `uv_run`: start and unreference
the check handle, unreference the stop handle unless the instance is a worker,
recompute the idle handle. -/
def QUV_Run_prepare (qrt : QUVRuntime) : QUVRuntime :=
  let q1 : QUVRuntime := { qrt with check := (uv_handle_start qrt.check).2 }
  let q2 : QUVRuntime := { q1 with check := uv_unref q1.check }
  let q3 : QUVRuntime := if !q2.is_worker then { q2 with stop := uv_unref q2.stop } else q2
  uv__maybe_idle q3

/-- Translation of `QUV_Run`. -/
def QUV_Run (fuel : Nat) (qrt : QUVRuntime) : Option RunResult :=
  uv_run_default fuel (QUV_Run_prepare qrt)

/-- Translation of `QUV_Stop`: signal the stop handle. -/
def QUV_Stop (qrt : QUVRuntime) : QUVRuntime :=
  uv_async_send qrt

/-- An instance between its creation and its teardown, outside `QUV_Run`: no
handle is closing, the stop handle is active as it is from its initialisation
on, the loop's stop request is clear as `uv_run` leaves it, the idle handle is
referenced (vm.c never unreferences it), and a worker's stop handle is
referenced. -/
def Usable (qrt : QUVRuntime) : Prop :=
  qrt.check.closing = false ∧ qrt.idle.closing = false ∧ qrt.stop.closing = false ∧
    qrt.stop.active = true ∧ qrt.loop.stop_flag = false ∧ qrt.idle.ref = true ∧
    (qrt.is_worker = true → qrt.stop.ref = true)

instance (qrt : QUVRuntime) : Decidable (Usable qrt) := by
  unfold Usable; infer_instance

/-! ## Teardown (`QUV_FreeRuntime`) -/

/-- The loop and engine primitives `QUV_FreeRuntime` calls, over any type of
instance state. -/
structure LoopOps (L : Type) where
  uv_close_idle : L → L
  uv_close_check : L → L
  uv_close_stop : L → L
  JS_FreeContext : L → L
  JS_FreeRuntime : L → L
  uv_loop_close : L → Int × L
  uv_run_nowait : L → L

/-- What `QUV_FreeRuntime` does that can be observed from outside. -/
inductive FreeEvent where
  | loop_close (r : Int) : FreeEvent
  | run_nowait : FreeEvent
  | print_all_handles : FreeEvent
  | abort : FreeEvent
  | free : FreeEvent
  deriving DecidableEq

/-- State and observable events at the end of `QUV_FreeRuntime`. -/
structure FreeOutcome (L : Type) where
  qrt : L
  closed : Int
  trace : List FreeEvent

/-- The `for (int i = 0; i < 5; i++)` loop of `QUV_FreeRuntime`, `n` rounds
left: try to close the loop, leave at the first success, else run the loop once
without waiting. -/
def loop_close_retry {L : Type} (ops : LoopOps L) : Nat → FreeOutcome L → FreeOutcome L
  | 0, o => o
  | n + 1, o =>
    let res := ops.uv_loop_close o.qrt
    if res.1 = 0 then
      { qrt := res.2, closed := 1, trace := o.trace ++ [.loop_close res.1] }
    else
      loop_close_retry ops n
        { qrt := ops.uv_run_nowait res.2, closed := o.closed,
          trace := o.trace ++ [.loop_close res.1, .run_nowait] }

/-- Translation of `QUV_FreeRuntime`.  `DEBUG` tells whether the build defines
the `DEBUG` macro; `CHECK_EQ(closed, 1)` aborts when `closed` is not 1. -/
def QUV_FreeRuntime {L : Type} (ops : LoopOps L) (DEBUG : Bool) (qrt : L) : FreeOutcome L :=
  let q1 := ops.uv_close_idle qrt
  let q2 := ops.uv_close_check q1
  let q3 := ops.uv_close_stop q2
  let q4 := ops.JS_FreeContext q3
  let q5 := ops.JS_FreeRuntime q4
  let o := loop_close_retry ops 5 { qrt := q5, closed := 0, trace := [] }
  let o1 : FreeOutcome L :=
    if DEBUG && decide (o.closed = 0) then { o with trace := o.trace ++ [.print_all_handles] }
    else o
  if o1.closed = 1 then { o1 with trace := o1.trace ++ [.free] }
  else { o1 with trace := o1.trace ++ [.abort] }

/-- The results of the attempts to close the loop, in order. -/
def closeAttempts (tr : List FreeEvent) : List Int :=
  tr.filterMap (fun e => match e with
    | .loop_close r => some r
    | _ => none)

/-- The attempts to close the loop and the runs of the loop, in order. -/
def loopEvents (tr : List FreeEvent) : List FreeEvent :=
  tr.filter (fun e => match e with
    | .loop_close _ => true
    | .run_nowait => true
    | _ => false)

/-- Modelled from the spec: the primitives of `QUV_FreeRuntime` on the loop and
engine modelled above (libuv and QuickJS, not part of vm.c); freeing the engine
runtime drops its pending jobs. -/
def libuv : LoopOps QUVRuntime :=
  { uv_close_idle := fun q => { q with idle := uv_close q.idle }
    uv_close_check := fun q => { q with check := uv_close q.check }
    uv_close_stop := fun q => { q with stop := uv_close q.stop }
    JS_FreeContext := fun q => q
    JS_FreeRuntime := fun q => { q with rt := { q.rt with job_list := [] }, engine_freed := true }
    uv_loop_close := uv_loop_close
    uv_run_nowait := uv_run_nowait }


/-- Another module registers `n` handles of its own on the instance's loop
(through `QUV_GetLoop`) and never closes them. -/
def register_handles (n : Nat) (qrt : QUVRuntime) : QUVRuntime :=
  { qrt with loop := { qrt.loop with other_handles := qrt.loop.other_handles + n } }

/-- The events of a failed attempt to close the loop: the attempt, then one run
of the loop without waiting. -/
def failedAttempt (r : Int) : List FreeEvent :=
  [.loop_close r, .run_nowait]

/-- The instance on which the first attempt to close the loop is made: the
three handles have been asked to close, in the order idle, check, stop, and
then the engine context and the engine runtime have been freed. -/
def teardownStart {L : Type} (ops : LoopOps L) (qrt : L) : L :=
  ops.JS_FreeRuntime (ops.JS_FreeContext (ops.uv_close_stop
    (ops.uv_close_check (ops.uv_close_idle qrt))))

/-- The instance on which attempt number `i` (counted from 0) is made when all
attempts before it have failed: after each failed attempt the loop has been run
once without waiting, on the state that attempt left. -/
def stateAtAttempt {L : Type} (ops : LoopOps L) (q0 : L) : Nat → L
  | 0 => q0
  | i + 1 => ops.uv_run_nowait (ops.uv_loop_close (stateAtAttempt ops q0 i)).2

/-- What the loop's close primitive answers to attempt number `i` (counted from
0) when all attempts before it have failed. -/
def attemptResult {L : Type} (ops : LoopOps L) (q0 : L) (i : Nat) : Int :=
  (ops.uv_loop_close (stateAtAttempt ops q0 i)).1

namespace RunResult

/-- The instance at the end of a call of the run primitive. -/
def qrt : RunResult → QUVRuntime
  | returned q => q
  | blocked q => q

/-- Whether the run primitive returned to its caller. -/
def hasReturned : RunResult → Bool
  | returned _ => true
  | blocked _ => false

end RunResult

/-! ## File evaluation (`load_file`, `QUV_EvalFile`) -/

/-- What one read of the storage collaborator delivers: an error, or the bytes
read (none at the end of the file).  Bytes are numbers below 256. -/
inductive ReadResult where
  | error (code : Nat) : ReadResult
  | data (bytes : List Nat) : ReadResult

/-- The storage collaborator: what opening a path returns (a descriptor, or a
negative error code) and what a read on a descriptor at an offset delivers. -/
structure Storage where
  open_result : String → Int
  read : Int → Nat → ReadResult

/-- Modelled from the spec: libuv `uv_fs_open` (not part of vm.c), synchronous
form: the result is the descriptor or a negative error code. -/
def uv_fs_open (st : Storage) (filename : String) : Int :=
  st.open_result filename

/-- Modelled from the spec: libuv `uv_fs_read` (not part of vm.c), synchronous
form with one buffer of `buflen` bytes: the result is a negative error code, or
the number of bytes read into the buffer, at most `buflen`, 0 at the end of the
file. -/
def uv_fs_read (st : Storage) (fd : Int) (buflen : Nat) (offset : Nat) : Int × List Nat :=
  match st.read fd offset with
  | .error code => (-((code : Int) + 1), [])
  | .data bytes => (((bytes.take buflen).length : Int), bytes.take buflen)

/-- Modelled from the spec: the growable buffer `DynBuf` of cutils.h
(deps/quickjs, not part of vm.c); `size` is the number of bytes it holds. -/
structure DynBuf where
  buf : List Nat

/-- Size of the buffer, `dbuf->size`. -/
def DynBuf.size (s : DynBuf) : Nat := s.buf.length

/-- Modelled from the spec: `dbuf_init` of cutils.h (not part of vm.c): an empty
growable buffer. -/
def dbuf_init : DynBuf := { buf := [] }

/-- Modelled from the spec: `dbuf_put` of cutils.h (not part of vm.c): the bytes
are appended to the growable buffer; the status is 0. -/
def dbuf_put (s : DynBuf) (data : List Nat) : Int × DynBuf :=
  (0, { buf := s.buf ++ data })

/-- Modelled from the spec: `dbuf_putc` of cutils.h (not part of vm.c): one byte
is appended. -/
def dbuf_putc (s : DynBuf) (c : Nat) : Int × DynBuf :=
  dbuf_put s [c]

/-- The `do ... while (1)` loop of `load_file`, with a bound on the number of
rounds: read at offset `dbuf->size`, leave when the read reports an error or the
end of the file (`r <= 0`), else append the `r` bytes read and leave if that
fails.  The third component logs what the storage calls returned. -/
def load_file_loop (st : Storage) (fd : Int) :
    Nat → DynBuf → List Int → Option (Int × DynBuf × List Int)
  | 0, _, _ => none
  | n + 1, dbuf, log =>
    let res := uv_fs_read st fd 4096 dbuf.size
    let r := res.1
    if r ≤ 0 then some (r, dbuf, log ++ [r])
    else
      let put := dbuf_put dbuf (res.2.take r.toNat)
      if put.1 ≠ 0 then some (put.1, put.2, log ++ [r])
      else load_file_loop st fd n put.2 (log ++ [r])

/-- Translation of `load_file`: open the file, return the error if that fails;
else read it into the buffer chunk by chunk, append the sentinel byte 0 and
return the last status. -/
def load_file (st : Storage) (fuel : Nat) (dbuf : DynBuf) (filename : String) :
    Option (Int × DynBuf × List Int) :=
  let r := uv_fs_open st filename
  if r < 0 then some (r, dbuf, [r])
  else
    match load_file_loop st r fuel dbuf [r] with
    | none => none
    | some res => some (res.1, (dbuf_putc res.2.1 0).2, res.2.2)

/-- An engine value as far as `QUV_EvalFile` looks at it: the exception marker
`JS_EXCEPTION`, or some other value. -/
inductive JSValue where
  | exception : JSValue
  | value (v : Nat) : JSValue
  deriving DecidableEq

/-- The engine collaborators of `QUV_EvalFile`: the module sniff and the
evaluation of a source buffer of a given length under a file name and flags. -/
structure Engine where
  JS_DetectModule : List Nat → Nat → Bool
  JS_Eval : List Nat → Nat → String → Int → JSValue

/-- The engine calls `QUV_EvalFile` makes, in order. -/
inductive EngineCall where
  | throwReferenceError (filename : String) : EngineCall
  | detectModule (buf : List Nat) (len : Nat) : EngineCall
  | eval (buf : List Nat) (len : Nat) (filename : String) (flags : Int) : EngineCall
  deriving DecidableEq

/-- Result of `QUV_EvalFile`: the value returned, the engine calls made and the
results of the storage calls. -/
structure EvalOutcome where
  ret : JSValue
  calls : List EngineCall
  io : List Int

/-- Modelled from the spec: the evaluation flag `JS_EVAL_TYPE_GLOBAL` of
quickjs.h (not part of vm.c), "global script" mode. -/
def JS_EVAL_TYPE_GLOBAL : Int := 0

/-- Modelled from the spec: the evaluation flag `JS_EVAL_TYPE_MODULE` of
quickjs.h (not part of vm.c), "module" mode. -/
def JS_EVAL_TYPE_MODULE : Int := 1

/-- Translation of `QUV_EvalFile`: load the file; on a nonzero status throw a
ReferenceError and return `JS_EXCEPTION`; else choose the flags (sniffing the
source when `flags` is -1) and return what the engine's evaluation returns. -/
def QUV_EvalFile (e : Engine) (st : Storage) (fuel : Nat) (filename : String) (flags : Int) :
    Option EvalOutcome :=
  match load_file st fuel dbuf_init filename with
  | none => none
  | some res =>
    let r := res.1
    let dbuf := res.2.1
    if r ≠ 0 then
      some { ret := .exception, calls := [.throwReferenceError filename], io := res.2.2 }
    else if flags = -1 then
      let eval_flags :=
        if e.JS_DetectModule dbuf.buf dbuf.size then JS_EVAL_TYPE_MODULE
        else JS_EVAL_TYPE_GLOBAL
      some { ret := e.JS_Eval dbuf.buf dbuf.size filename eval_flags
             calls := [.detectModule dbuf.buf dbuf.size,
                       .eval dbuf.buf dbuf.size filename eval_flags]
             io := res.2.2 }
    else
      some { ret := e.JS_Eval dbuf.buf dbuf.size filename flags
             calls := [.eval dbuf.buf dbuf.size filename flags]
             io := res.2.2 }

/-- What loading a file comes to, told from the storage alone: the file could
not be opened or a read of it failed, with the negative code the storage
answered, or the file was read to its end and these are its bytes. -/
inductive Loaded where
  | failed (code : Int) : Loaded
  | content (bytes : List Nat) : Loaded

/-- Reading a file of the storage from an offset to its end, in the chunks the
storage delivers (at most 4096 bytes are taken from each), within `n` reads: a
read that fails gives `failed`, a read that delivers nothing ends the file, and
without such a read within `n` reads there is no result. -/
def readWhole (st : Storage) (fd : Int) : Nat → Nat → Option Loaded
  | 0, _ => none
  | n + 1, off =>
    match st.read fd off with
    | .error code => some (.failed (-((code : Int) + 1)))
    | .data bytes =>
      if bytes.take 4096 = [] then some (.content [])
      else
        match readWhole st fd n (off + (bytes.take 4096).length) with
        | none => none
        | some (.failed c) => some (.failed c)
        | some (.content rest) => some (.content (bytes.take 4096 ++ rest))

/-- Opening a path and reading the file to its end, within `n` reads: `failed`
when the storage answers the open with a negative code, else what reading from
offset 0 on the descriptor comes to. -/
def openAndRead (st : Storage) (n : Nat) (filename : String) : Option Loaded :=
  if st.open_result filename < 0 then some (.failed (st.open_result filename))
  else readWhole st (st.open_result filename) n 0

/-- What `QUV_EvalFile` is to return and which engine calls it is to make, from
what loading the file came to: a ReferenceError and `JS_EXCEPTION` when the file
could not be opened or read; else the engine's evaluation of the bytes followed
by one 0 byte, in module or global mode as the sniff says when `flags` is -1 and
under the caller's flags, without sniff, for every other `flags`. -/
def evalFileSpec (e : Engine) (filename : String) (flags : Int) :
    Loaded → JSValue × List EngineCall
  | .failed _ => (.exception, [.throwReferenceError filename])
  | .content bytes =>
    if flags = -1 then
      if e.JS_DetectModule (bytes ++ [0]) (bytes.length + 1) then
        (e.JS_Eval (bytes ++ [0]) (bytes.length + 1) filename JS_EVAL_TYPE_MODULE,
          [.detectModule (bytes ++ [0]) (bytes.length + 1),
           .eval (bytes ++ [0]) (bytes.length + 1) filename JS_EVAL_TYPE_MODULE])
      else
        (e.JS_Eval (bytes ++ [0]) (bytes.length + 1) filename JS_EVAL_TYPE_GLOBAL,
          [.detectModule (bytes ++ [0]) (bytes.length + 1),
           .eval (bytes ++ [0]) (bytes.length + 1) filename JS_EVAL_TYPE_GLOBAL])
    else
      (e.JS_Eval (bytes ++ [0]) (bytes.length + 1) filename flags,
        [.eval (bytes ++ [0]) (bytes.length + 1) filename flags])

/-- The storage behaves on descriptor `fd` as a file of the given content: a
read at an offset inside the file delivers a non-empty run of at most 4096
bytes of the content from that offset on, a read at or past the end delivers
nothing. -/
def ReadsInChunks (st : Storage) (fd : Int) (content : List Nat) : Prop :=
  ∀ off : Nat,
    (off < content.length →
      ∃ k, 1 ≤ k ∧ k ≤ 4096 ∧ st.read fd off = .data ((content.drop off).take k)) ∧
    (content.length ≤ off → st.read fd off = .data [])

/-- A storage with one file of the given content, read `chunk` bytes at a time
(1 byte when `chunk` is 0); `missing` is the only path that cannot be opened. -/
def chunkedStorage (content : List Nat) (chunk : Nat) (missing : String) : Storage :=
  { open_result := fun p => if p = missing then -2 else 3
    read := fun _ off => .data ((content.drop off).take (max 1 (min chunk 4096))) }

/-! # Theorems -/

/-! ## Job forests and the run order -/

theorem weightList_append (a b : List Job) :
    weightList (a ++ b) = weightList a + weightList b := by
  induction a with
  | nil => simp [weightList]
  | cons j js ih => simp [weightList, ih, Nat.add_assoc]

theorem weightList_cons (j : Job) (q : List Job) :
    weightList (j :: q) = weightList (q ++ j.spawns) + 1 := by
  cases j with
  | mk n f js => simp [weightList, Job.weight, weightList_append, Job.spawns]; omega

theorem cleanList_append (a b : List Job) :
    cleanList (a ++ b) = (cleanList a && cleanList b) := by
  induction a with
  | nil => simp [cleanList]
  | cons j js ih => simp [cleanList, ih, Bool.and_assoc]

theorem cleanList_cons (j : Job) (q : List Job) :
    cleanList (j :: q) = (!j.fails && cleanList (q ++ j.spawns)) := by
  cases j with
  | mk n f js =>
    simp [cleanList, Job.clean, cleanList_append, Job.fails, Job.spawns]
    cases f <;> cases cleanList js <;> cases cleanList q <;> rfl

theorem runOrder_nil : runOrder [] = [] := by
  simp [runOrder, weightList, runOrderN]

theorem runOrder_cons (j : Job) (q : List Job) :
    runOrder (j :: q) = j :: runOrder (q ++ j.spawns) := by
  simp [runOrder, weightList_cons, runOrderN]

theorem runOrderN_length : ∀ (n : Nat) (q : List Job), weightList q ≤ n →
    (runOrderN n q).length = weightList q := by
  intro n
  induction n with
  | zero =>
    intro q h
    have : weightList q = 0 := by omega
    simp [runOrderN, this]
  | succ n ih =>
    intro q h
    cases q with
    | nil => simp [runOrderN, weightList]
    | cons j q =>
      rw [weightList_cons] at h ⊢
      simp [runOrderN, ih (q ++ j.spawns) (by omega)]

theorem runOrder_length (q : List Job) : (runOrder q).length = weightList q :=
  runOrderN_length _ q (Nat.le_refl _)

theorem queueAfter_nil (k : Nat) : queueAfter k [] = [] := by
  cases k <;> rfl

theorem queueAfter_all : ∀ (n : Nat) (q : List Job), weightList q ≤ n →
    queueAfter n q = [] := by
  intro n
  induction n with
  | zero =>
    intro q h
    cases q with
    | nil => rfl
    | cons j q => rw [weightList_cons] at h; omega
  | succ n ih =>
    intro q h
    cases q with
    | nil => rfl
    | cons j q =>
      rw [weightList_cons] at h
      simp [queueAfter, ih (q ++ j.spawns) (by omega)]

theorem clean_runOrderN : ∀ (n : Nat) (q : List Job), cleanList q = true →
    ∀ j ∈ runOrderN n q, j.fails = false := by
  intro n
  induction n with
  | zero => intro q _ j hj; simp [runOrderN] at hj
  | succ n ih =>
    intro q h j hj
    cases q with
    | nil => simp [runOrderN] at hj
    | cons j0 q =>
      rw [cleanList_cons] at h
      simp only [Bool.and_eq_true, Bool.not_eq_true'] at h
      simp only [runOrderN, List.mem_cons] at hj
      rcases hj with rfl | hj
      · exact h.1
      · exact ih _ h.2 j hj

/-- Executed jobs followed by the queue are the jobs enqueued so far: after `k`
jobs of the run order, the jobs run and the jobs still queued are the initial
queue followed by what the jobs run have enqueued. -/
theorem take_runOrder_append_queueAfter : ∀ (k : Nat) (q : List Job),
    k ≤ (runOrder q).length →
    (runOrder q).take k ++ queueAfter k q = q ++ ((runOrder q).take k).flatMap Job.spawns := by
  intro k
  induction k with
  | zero => intro q _; simp [queueAfter]
  | succ k ih =>
    intro q h
    cases q with
    | nil => simp [runOrder_nil] at h
    | cons j q =>
      rw [runOrder_cons] at h ⊢
      simp only [List.length_cons, Nat.add_le_add_iff_right] at h
      simp [queueAfter, ih _ h]

/-- No job is lost: the run order of a queue is its first `k` jobs followed by
the run order of the queue they leave. -/
theorem runOrder_split : ∀ (k : Nat) (q : List Job), k ≤ (runOrder q).length →
    runOrder q = (runOrder q).take k ++ runOrder (queueAfter k q) := by
  intro k
  induction k with
  | zero => intro q _; simp [queueAfter]
  | succ k ih =>
    intro q h
    cases q with
    | nil => simp [runOrder_nil] at h
    | cons j q =>
      rw [runOrder_cons] at h ⊢
      simp only [List.length_cons, Nat.add_le_add_iff_right] at h
      simp only [List.take_succ_cons, queueAfter, List.cons_append, List.cons.injEq, true_and]
      exact ih _ h

/-! ## The drain loop -/

theorem foldl_enqueue (js : List Job) (rt : JSRuntime) :
    js.foldl JS_EnqueueJob rt =
      { rt with job_list := rt.job_list ++ js, enqueue_log := rt.enqueue_log ++ js } := by
  induction js generalizing rt with
  | nil => simp
  | cons j js ih => simp [ih, JS_EnqueueJob]

theorem advance_zero (qrt : QUVRuntime) : advance 0 qrt = qrt := by
  simp [advance, queueAfter]

theorem advance_succ (k : Nat) (qrt : QUVRuntime) (j : Job) (q : List Job)
    (h : qrt.rt.job_list = j :: q) : advance (k + 1) qrt = advance k (advance 1 qrt) := by
  simp [advance, h, runOrder_cons, queueAfter, List.append_assoc]

theorem execute_pending_jobs_nil (n : Nat) (qrt : QUVRuntime) (h : qrt.rt.job_list = []) :
    execute_pending_jobs (n + 1) qrt = qrt := by
  simp [execute_pending_jobs, JS_ExecutePendingJob, h]

theorem execute_pending_jobs_fail (n : Nat) (qrt : QUVRuntime) (j : Job) (q : List Job)
    (h : qrt.rt.job_list = j :: q) (hf : j.fails = true) :
    execute_pending_jobs (n + 1) qrt =
      { advance 1 qrt with dump_log := qrt.dump_log ++ [some j.name] } := by
  simp [execute_pending_jobs, JS_ExecutePendingJob, h, hf, quv_dump_error, advance,
    queueAfter, runOrder_cons, foldl_enqueue]

theorem execute_pending_jobs_ok (n : Nat) (qrt : QUVRuntime) (j : Job) (q : List Job)
    (h : qrt.rt.job_list = j :: q) (hf : j.fails = false) :
    execute_pending_jobs (n + 1) qrt = execute_pending_jobs n (advance 1 qrt) := by
  simp [execute_pending_jobs, JS_ExecutePendingJob, h, hf, advance,
    queueAfter, runOrder_cons, foldl_enqueue]

/-- The drain runs the jobs of the run order one per round as long as none
fails. -/
theorem execute_pending_jobs_prefix : ∀ (k n : Nat) (qrt : QUVRuntime),
    k ≤ (runOrder qrt.rt.job_list).length →
    (∀ j ∈ (runOrder qrt.rt.job_list).take k, j.fails = false) →
    execute_pending_jobs (n + k) qrt = execute_pending_jobs n (advance k qrt) := by
  intro k
  induction k with
  | zero => intro n qrt _ _; simp [advance_zero]
  | succ k ih =>
    intro n qrt hk hc
    match hq : qrt.rt.job_list with
    | [] => simp [hq, runOrder_nil] at hk
    | j :: q =>
      rw [hq, runOrder_cons] at hk hc
      simp only [List.length_cons, Nat.add_le_add_iff_right] at hk
      have hj : j.fails = false := hc j (by simp)
      have hq1 : (advance 1 qrt).rt.job_list = q ++ j.spawns := by
        simp [advance, hq, queueAfter]
      rw [← Nat.add_assoc, execute_pending_jobs_ok _ qrt j q hq hj,
        ih n (advance 1 qrt) (by rw [hq1]; exact hk)
          (by rw [hq1]; intro j1 hj1; exact hc j1 (by simp [hj1])),
        ← advance_succ k qrt j q hq]

/-- The bound on the rounds of the drain is never what ends it: with any larger
bound the drain gives the same state. -/
theorem execute_pending_jobs_stable : ∀ (n : Nat) (qrt : QUVRuntime),
    weightList qrt.rt.job_list + 1 ≤ n →
    execute_pending_jobs n qrt = execute_pending_jobs (weightList qrt.rt.job_list + 1) qrt := by
  intro n
  induction n with
  | zero => intro qrt h; omega
  | succ n ih =>
    intro qrt h
    match hq : qrt.rt.job_list with
    | [] => rw [execute_pending_jobs_nil n qrt hq, execute_pending_jobs_nil _ qrt hq]
    | j :: q =>
      cases hf : j.fails with
      | true =>
        rw [execute_pending_jobs_fail n qrt j q hq hf, execute_pending_jobs_fail _ qrt j q hq hf]
      | false =>
        have hq1 : (advance 1 qrt).rt.job_list = q ++ j.spawns := by
          simp [advance, hq, queueAfter]
        rw [hq, weightList_cons] at h
        rw [execute_pending_jobs_ok n qrt j q hq hf, weightList_cons,
          execute_pending_jobs_ok _ qrt j q hq hf, ih (advance 1 qrt) (by rw [hq1]; omega), hq1]

/-- The drain obeys the recursion of the `for (;;)` loop of `uv__check_cb`: with
an empty queue it ends at once, after a failing job it dumps and ends, after any
other job it goes on with the queue that job left. -/
theorem execute_pending_jobs_unfold (qrt : QUVRuntime) :
    execute_pending_jobs (weightList qrt.rt.job_list + 1) qrt =
      match qrt.rt.job_list with
      | [] => qrt
      | j :: _ =>
        if j.fails then { advance 1 qrt with dump_log := qrt.dump_log ++ [some j.name] }
        else execute_pending_jobs (weightList (advance 1 qrt).rt.job_list + 1) (advance 1 qrt) := by
  match hq : qrt.rt.job_list with
  | [] => simp [execute_pending_jobs_nil _ qrt hq]
  | j :: q =>
    cases hf : j.fails with
    | true => simp [execute_pending_jobs_fail _ qrt j q hq hf, hf]
    | false =>
      have hq1 : (advance 1 qrt).rt.job_list = q ++ j.spawns := by
        simp [advance, hq, queueAfter]
      simp [weightList_cons, execute_pending_jobs_ok _ qrt j q hq hf, hq1, hf]

theorem uv__maybe_idle_rt (qrt : QUVRuntime) : (uv__maybe_idle qrt).rt = qrt.rt := by
  unfold uv__maybe_idle; split <;> rfl

theorem uv__maybe_idle_dump_log (qrt : QUVRuntime) :
    (uv__maybe_idle qrt).dump_log = qrt.dump_log := by
  unfold uv__maybe_idle; split <;> rfl

theorem uv__maybe_idle_active (qrt : QUVRuntime) :
    (uv__maybe_idle qrt).idle.active = JS_IsJobPending qrt.rt := by
  unfold uv__maybe_idle; split <;> simp_all [uv_handle_start, uv_handle_stop]

/-- A pass in which no job fails runs the whole run order and empties the
queue. -/
theorem execute_pending_jobs_clean (qrt : QUVRuntime)
    (h : ∀ j ∈ runOrder qrt.rt.job_list, j.fails = false) :
    execute_pending_jobs (weightList qrt.rt.job_list + 1) qrt =
      advance (weightList qrt.rt.job_list) qrt := by
  have hlen := runOrder_length qrt.rt.job_list
  rw [Nat.add_comm, execute_pending_jobs_prefix _ 1 qrt (by omega)
    (by intro j hj; exact h j (List.mem_of_mem_take hj))]
  exact execute_pending_jobs_nil 0 _ (by simp [advance, queueAfter_all])

theorem advance_add_one : ∀ (m : Nat) (qrt : QUVRuntime),
    m < (runOrder qrt.rt.job_list).length →
    advance (m + 1) qrt = advance 1 (advance m qrt) := by
  intro m
  induction m with
  | zero => intro qrt _; rw [advance_zero]
  | succ m ih =>
    intro qrt h
    match hq : qrt.rt.job_list with
    | [] => simp [hq, runOrder_nil] at h
    | j :: q =>
      have hq1 : (advance 1 qrt).rt.job_list = q ++ j.spawns := by
        simp [advance, hq, queueAfter]
      rw [hq, runOrder_cons] at h
      simp only [List.length_cons, Nat.add_lt_add_iff_right] at h
      rw [advance_succ (m + 1) qrt j q hq, ih (advance 1 qrt) (by rw [hq1]; exact h),
        ← advance_succ m qrt j q hq]

theorem drop_runOrder (m : Nat) (q : List Job) (h : m ≤ (runOrder q).length) :
    (runOrder q).drop m = runOrder (queueAfter m q) := by
  have hlt : ((runOrder q).take m).length = m := by simp; omega
  calc (runOrder q).drop m
      = ((runOrder q).take m ++ runOrder (queueAfter m q)).drop m := by
        rw [← runOrder_split m q h]
    _ = runOrder (queueAfter m q) := List.drop_left' hlt

/-- A pass whose `k`-th job is the first to fail runs `k` jobs and dumps the
error of the last. -/
theorem execute_pending_jobs_first_failure (qrt : QUVRuntime) (k : Nat)
    (h : FirstFailureAt qrt.rt.job_list k) :
    ∃ j, (runOrder qrt.rt.job_list)[k - 1]? = some j ∧ j.fails = true ∧
      execute_pending_jobs (weightList qrt.rt.job_list + 1) qrt =
        { advance k qrt with dump_log := qrt.dump_log ++ [some j.name] } := by
  obtain ⟨hk1, hk2, hall, hhead⟩ := h
  obtain ⟨m, rfl⟩ : ∃ m, k = m + 1 := ⟨k - 1, by omega⟩
  simp only [Nat.add_sub_cancel] at hall hhead ⊢
  have hlen := runOrder_length qrt.rt.job_list
  have hdrop := drop_runOrder m qrt.rt.job_list (by omega)
  rw [hdrop] at hhead
  match hq : queueAfter m qrt.rt.job_list with
  | [] => simp [hq, runOrder_nil] at hhead
  | j :: q =>
    rw [hq, runOrder_cons] at hhead
    simp only [List.head?_cons, Option.map_some', Option.some.injEq] at hhead
    refine ⟨j, ?_, hhead, ?_⟩
    · rw [← List.head?_drop, hdrop, hq, runOrder_cons]; rfl
    · have hw : execute_pending_jobs (weightList qrt.rt.job_list + 1) qrt =
          execute_pending_jobs ((weightList qrt.rt.job_list - m) + 1 + m) qrt := by
        congr 1; omega
      have hclean : ∀ j ∈ (runOrder qrt.rt.job_list).take m, j.fails = false := by
        intro j1 hj1
        have := List.all_eq_true.mp hall j1 hj1
        simpa using this
      have hqa : (advance m qrt).rt.job_list = j :: q := by simp [advance, hq]
      rw [hw, execute_pending_jobs_prefix m _ qrt (by omega) hclean,
        execute_pending_jobs_fail _ _ j q hqa hhead, advance_add_one m qrt (by omega)]
      rfl

theorem uv__check_cb_rt (qrt : QUVRuntime) :
    (uv__check_cb qrt).rt = (execute_pending_jobs (weightList qrt.rt.job_list + 1) qrt).rt := by
  unfold uv__check_cb; rw [uv__maybe_idle_rt]

theorem uv__check_cb_dump_log (qrt : QUVRuntime) :
    (uv__check_cb qrt).dump_log =
      (execute_pending_jobs (weightList qrt.rt.job_list + 1) qrt).dump_log := by
  unfold uv__check_cb; rw [uv__maybe_idle_dump_log]

theorem uv__check_cb_active (qrt : QUVRuntime) :
    (uv__check_cb qrt).idle.active = JS_IsJobPending (uv__check_cb qrt).rt := by
  unfold uv__check_cb; rw [uv__maybe_idle_active, uv__maybe_idle_rt]

theorem QUV_Run_prepare_rt (qrt : QUVRuntime) : (QUV_Run_prepare qrt).rt = qrt.rt := by
  unfold QUV_Run_prepare
  simp only [uv__maybe_idle_rt]
  split <;> rfl

/-- C1: after `uv__maybe_idle` has run, the idle handle is armed exactly when
the engine reports a pending job at that moment.  This holds for the function
itself, at the end of every job-draining pass `uv__check_cb`, and in `QUV_Run`
when the loop is about to be entered, for every instance and every state of the
job queue. -/
theorem idle_armed_iff_job_pending (qrt : QUVRuntime) :
    (uv__maybe_idle qrt).idle.active = JS_IsJobPending (uv__maybe_idle qrt).rt ∧
    (uv__check_cb qrt).idle.active = JS_IsJobPending (uv__check_cb qrt).rt ∧
    (QUV_Run_prepare qrt).idle.active = JS_IsJobPending (QUV_Run_prepare qrt).rt := by
  refine ⟨?_, uv__check_cb_active qrt, ?_⟩
  · rw [uv__maybe_idle_active, uv__maybe_idle_rt]
  · unfold QUV_Run_prepare
    simp only [uv__maybe_idle_active, uv__maybe_idle_rt]

/-- C2: when no job of the queue fails, and none of the jobs they enqueue, one
job-draining pass `uv__check_cb` leaves the queue empty, and the jobs it has run
are, in this order and each once, the jobs that were queued followed by the jobs
that were enqueued during the pass; that is the run order of the queue, one job
for every job of the forest, and no error is dumped. -/
theorem check_cb_runs_every_job_once (qrt : QUVRuntime)
    (hclean : cleanList qrt.rt.job_list = true) :
    (uv__check_cb qrt).rt.job_list = [] ∧
    (∃ new, (uv__check_cb qrt).rt.enqueue_log = qrt.rt.enqueue_log ++ new ∧
      (uv__check_cb qrt).rt.executed = qrt.rt.executed ++ (qrt.rt.job_list ++ new)) ∧
    (uv__check_cb qrt).rt.executed = qrt.rt.executed ++ runOrder qrt.rt.job_list ∧
    (runOrder qrt.rt.job_list).length = weightList qrt.rt.job_list ∧
    (uv__check_cb qrt).dump_log = qrt.dump_log ∧
    (uv__check_cb qrt).idle.active = false := by
  have hc : ∀ j ∈ runOrder qrt.rt.job_list, j.fails = false :=
    clean_runOrderN _ _ hclean
  have hlen := runOrder_length qrt.rt.job_list
  have hinv := take_runOrder_append_queueAfter (weightList qrt.rt.job_list) qrt.rt.job_list
    (by omega)
  have htake : (runOrder qrt.rt.job_list).take (weightList qrt.rt.job_list) =
      runOrder qrt.rt.job_list := by rw [← hlen]; exact List.take_length _
  rw [htake, queueAfter_all _ _ (Nat.le_refl _), List.append_nil] at hinv
  have hrt := uv__check_cb_rt qrt
  rw [execute_pending_jobs_clean qrt hc] at hrt
  have hq : (uv__check_cb qrt).rt.job_list = [] := by
    rw [hrt]; simp [advance, queueAfter_all]
  refine ⟨hq, ⟨(runOrder qrt.rt.job_list).flatMap Job.spawns, ?_, ?_⟩, ?_, hlen, ?_, ?_⟩
  · rw [hrt]; simp [advance, htake]
  · rw [hrt, ← hinv]; simp [advance, htake]
  · rw [hrt]; simp [advance, htake]
  · rw [uv__check_cb_dump_log, execute_pending_jobs_clean qrt hc]; rfl
  · rw [uv__check_cb_active]; simp [JS_IsJobPending, hq]

/-- C2, the scenario: jobs A, B, C are queued and B enqueues D; one pass runs
A, B, C, D in this order and leaves the queue empty. -/
theorem check_cb_runs_A_B_C_D :
    cleanList (QUV_NewRuntime2 false
      [Job.mk 1 false [], Job.mk 2 false [Job.mk 4 false []], Job.mk 3 false []]).rt.job_list
      = true ∧
    (uv__check_cb (QUV_NewRuntime2 false
      [Job.mk 1 false [], Job.mk 2 false [Job.mk 4 false []], Job.mk 3 false []])).rt.executed
      = [Job.mk 1 false [], Job.mk 2 false [Job.mk 4 false []], Job.mk 3 false [],
          Job.mk 4 false []] ∧
    (uv__check_cb (QUV_NewRuntime2 false
      [Job.mk 1 false [], Job.mk 2 false [Job.mk 4 false []], Job.mk 3 false []])).rt.job_list
      = [] :=
  ⟨rfl,
   (check_cb_runs_every_job_once (QUV_NewRuntime2 false
      [Job.mk 1 false [], Job.mk 2 false [Job.mk 4 false []], Job.mk 3 false []]) rfl).2.2.1,
   (check_cb_runs_every_job_once (QUV_NewRuntime2 false
      [Job.mk 1 false [], Job.mk 2 false [Job.mk 4 false []], Job.mk 3 false []]) rfl).1⟩

theorem uv__check_cb_clean_rt (qrt : QUVRuntime)
    (hc : ∀ j ∈ runOrder qrt.rt.job_list, j.fails = false) :
    (uv__check_cb qrt).rt.job_list = [] ∧
      (uv__check_cb qrt).rt.executed = qrt.rt.executed ++ runOrder qrt.rt.job_list := by
  have hlen := runOrder_length qrt.rt.job_list
  have htake : (runOrder qrt.rt.job_list).take (weightList qrt.rt.job_list) =
      runOrder qrt.rt.job_list := by rw [← hlen]; exact List.take_length _
  rw [uv__check_cb_rt, execute_pending_jobs_clean qrt hc]
  simp [advance, queueAfter_all, htake]

theorem uv__check_cb_failure_rt (qrt : QUVRuntime) (k : Nat)
    (h : FirstFailureAt qrt.rt.job_list k) :
    (uv__check_cb qrt).rt.job_list = queueAfter k qrt.rt.job_list ∧
      (uv__check_cb qrt).rt.executed = qrt.rt.executed ++ (runOrder qrt.rt.job_list).take k := by
  obtain ⟨j, _, _, he⟩ := execute_pending_jobs_first_failure qrt k h
  rw [uv__check_cb_rt, he]
  simp [advance]

/-- C8, as the code has it: when the `k`-th job of the run order is the first
to fail, one job-draining pass runs exactly the first `k` jobs in order, dumps
the error of the failing job once and runs no later job; the jobs then queued
are all the jobs enqueued and not yet run, in order; the idle handle is armed
exactly when such a job remains.  The next pass resumes with the first
remaining job: it runs all remaining jobs when none of them fails, and it stops
in the same way at the first of them that fails. -/
theorem check_cb_stops_at_first_failure (qrt : QUVRuntime) (k : Nat)
    (h : FirstFailureAt qrt.rt.job_list k) :
    (uv__check_cb qrt).rt.executed =
      qrt.rt.executed ++ (runOrder qrt.rt.job_list).take k ∧
    (∃ j, (runOrder qrt.rt.job_list)[k - 1]? = some j ∧ j.fails = true ∧
      (uv__check_cb qrt).dump_log = qrt.dump_log ++ [some j.name]) ∧
    (uv__check_cb qrt).rt.job_list = queueAfter k qrt.rt.job_list ∧
    (runOrder qrt.rt.job_list).take k ++ (uv__check_cb qrt).rt.job_list =
      qrt.rt.job_list ++ ((runOrder qrt.rt.job_list).take k).flatMap Job.spawns ∧
    runOrder qrt.rt.job_list =
      (runOrder qrt.rt.job_list).take k ++ runOrder (uv__check_cb qrt).rt.job_list ∧
    ((uv__check_cb qrt).idle.active = true ↔ (uv__check_cb qrt).rt.job_list ≠ []) ∧
    ((∀ j ∈ runOrder (uv__check_cb qrt).rt.job_list, j.fails = false) →
      (uv__check_cb (uv__check_cb qrt)).rt.job_list = [] ∧
      (uv__check_cb (uv__check_cb qrt)).rt.executed =
        qrt.rt.executed ++ runOrder qrt.rt.job_list) ∧
    (∀ k2, FirstFailureAt (uv__check_cb qrt).rt.job_list k2 →
      (uv__check_cb (uv__check_cb qrt)).rt.executed =
        qrt.rt.executed ++ (runOrder qrt.rt.job_list).take (k + k2)) := by
  have hk := h.2.1
  obtain ⟨hq, hex⟩ := uv__check_cb_failure_rt qrt k h
  obtain ⟨j, hj, hjf, he⟩ := execute_pending_jobs_first_failure qrt k h
  have hsplit := runOrder_split k qrt.rt.job_list hk
  have hlt : ((runOrder qrt.rt.job_list).take k).length = k := by simp; omega
  refine ⟨hex, ⟨j, hj, hjf, ?_⟩, hq, ?_, ?_, ?_, ?_, ?_⟩
  · rw [uv__check_cb_dump_log, he]
  · rw [hq]; exact take_runOrder_append_queueAfter k _ hk
  · rw [hq]; exact hsplit
  · rw [uv__check_cb_active]; simp [JS_IsJobPending]
  · intro hc
    obtain ⟨h1, h2⟩ := uv__check_cb_clean_rt (uv__check_cb qrt) hc
    refine ⟨h1, ?_⟩
    rw [h2, hex, hq, List.append_assoc, ← hsplit]
  · intro k2 h2
    obtain ⟨_, h3⟩ := uv__check_cb_failure_rt (uv__check_cb qrt) k2 h2
    rw [h3, hex, hq, List.append_assoc]
    congr 1
    have hta : ∀ (a b : List Job), a.length = k → (a ++ b).take (k + k2) = a ++ b.take k2 := by
      intro a b hab
      rw [← hab]; exact List.take_append _
    conv_rhs => rw [hsplit]
    exact (hta _ _ hlt).symm

/-- C8, an instance: A enqueues D, F fails, C follows; the pass runs A and F,
and C and D stay queued, in this order. -/
theorem check_cb_stops_at_first_failure_witness :
    FirstFailureAt (QUV_NewRuntime2 false
      [Job.mk 1 false [Job.mk 4 false []], Job.mk 2 true [], Job.mk 3 false []]).rt.job_list 2 ∧
    (uv__check_cb (QUV_NewRuntime2 false
      [Job.mk 1 false [Job.mk 4 false []], Job.mk 2 true [], Job.mk 3 false []])).rt.job_list
      = [Job.mk 3 false [], Job.mk 4 false []] :=
  ⟨by decide,
   (check_cb_stops_at_first_failure (QUV_NewRuntime2 false
      [Job.mk 1 false [Job.mk 4 false []], Job.mk 2 true [], Job.mk 3 false []]) 2
      (by decide)).2.2.1⟩

/-- C8 as stated fails: with two failing jobs F1 and F2 ahead of X, the first
job is the first to fail and the pass stops after it with F2 and X queued and
the idle handle armed, but the next pass stops after F2: X is still queued
after it, the remaining jobs were not all drained by the next pass. -/
theorem next_pass_stops_at_second_failure :
    FirstFailureAt (QUV_NewRuntime2 false
      [Job.mk 1 true [], Job.mk 2 true [], Job.mk 3 false []]).rt.job_list 1 ∧
    (uv__check_cb (QUV_NewRuntime2 false
      [Job.mk 1 true [], Job.mk 2 true [], Job.mk 3 false []])).rt.job_list
      = [Job.mk 2 true [], Job.mk 3 false []] ∧
    (uv__check_cb (QUV_NewRuntime2 false
      [Job.mk 1 true [], Job.mk 2 true [], Job.mk 3 false []])).idle.active = true ∧
    (uv__check_cb (uv__check_cb (QUV_NewRuntime2 false
      [Job.mk 1 true [], Job.mk 2 true [], Job.mk 3 false []]))).rt.job_list
      = [Job.mk 3 false []] ∧
    (uv__check_cb (uv__check_cb (QUV_NewRuntime2 false
      [Job.mk 1 true [], Job.mk 2 true [], Job.mk 3 false []]))).rt.executed
      = [Job.mk 1 true [], Job.mk 2 true []] :=
  ⟨by decide, rfl, rfl, rfl, rfl⟩

/-! ## Teardown -/

theorem closeAttempts_append (a b : List FreeEvent) :
    closeAttempts (a ++ b) = closeAttempts a ++ closeAttempts b := by
  simp [closeAttempts]

theorem loopEvents_append (a b : List FreeEvent) :
    loopEvents (a ++ b) = loopEvents a ++ loopEvents b := by
  simp [loopEvents]

theorem closeAttempts_failed (rs : List Int) :
    closeAttempts (rs.flatMap failedAttempt) = rs := by
  induction rs with
  | nil => rfl
  | cons r rs ih =>
    rw [List.flatMap_cons, closeAttempts_append, ih]
    simp [closeAttempts, failedAttempt]

theorem loopEvents_failed (rs : List Int) :
    loopEvents (rs.flatMap failedAttempt) = rs.flatMap failedAttempt := by
  induction rs with
  | nil => rfl
  | cons r rs ih =>
    rw [List.flatMap_cons, loopEvents_append, ih]
    simp [loopEvents, failedAttempt]

theorem abort_not_mem_failed (rs : List Int) (e : FreeEvent)
    (he : e = .abort ∨ e = .free ∨ e = .print_all_handles) :
    e ∉ rs.flatMap failedAttempt := by
  intro h
  rw [List.mem_flatMap] at h
  obtain ⟨r, _, hr⟩ := h
  rcases he with rfl | rfl | rfl <;> simp [failedAttempt] at hr

/-- The retry loop with `n` rounds: some attempts fail, each followed by one run
of the loop, and then either an attempt succeeds and ends the loop with
`closed = 1`, or all `n` attempts have failed and `closed` is as before. -/
theorem loop_close_retry_spec {L : Type} (ops : LoopOps L) :
    ∀ (n : Nat) (o : FreeOutcome L), ∃ rs : List Int, (∀ r ∈ rs, r ≠ 0) ∧
      ((rs.length < n ∧ (loop_close_retry ops n o).closed = 1 ∧
          (loop_close_retry ops n o).trace =
            o.trace ++ rs.flatMap failedAttempt ++ [.loop_close 0]) ∨
       (rs.length = n ∧ (loop_close_retry ops n o).closed = o.closed ∧
          (loop_close_retry ops n o).trace = o.trace ++ rs.flatMap failedAttempt)) := by
  intro n
  induction n with
  | zero => intro o; exact ⟨[], by simp, Or.inr ⟨rfl, rfl, by simp [loop_close_retry]⟩⟩
  | succ n ih =>
    intro o
    by_cases h0 : (ops.uv_loop_close o.qrt).1 = 0
    · refine ⟨[], by simp, Or.inl ⟨by simp, ?_, ?_⟩⟩
      · simp [loop_close_retry, h0]
      · simp [loop_close_retry, h0]
    · obtain ⟨rs, hrs, hcase⟩ := ih
        { qrt := ops.uv_run_nowait (ops.uv_loop_close o.qrt).2, closed := o.closed,
          trace := o.trace ++ [.loop_close (ops.uv_loop_close o.qrt).1, .run_nowait] }
      refine ⟨(ops.uv_loop_close o.qrt).1 :: rs, ?_, ?_⟩
      · intro r hr
        rcases List.mem_cons.mp hr with rfl | hr
        · exact h0
        · exact hrs r hr
      · rcases hcase with ⟨h1, h2, h3⟩ | ⟨h1, h2, h3⟩
        · left
          refine ⟨by simp; omega, ?_, ?_⟩
          · simpa [loop_close_retry, h0] using h2
          · simp only [loop_close_retry, h0, if_false]
            rw [h3]; simp [failedAttempt]
        · right
          refine ⟨by simp; omega, ?_, ?_⟩
          · simpa [loop_close_retry, h0] using h2
          · simp only [loop_close_retry, h0, if_false]
            rw [h3]; simp [failedAttempt]

/-- The two ways `QUV_FreeRuntime` can end: after fewer than five failed
attempts the loop closes and the instance is freed; or five attempts fail, the
outstanding handles are printed in a `DEBUG` build, and the process aborts. -/
theorem QUV_FreeRuntime_spec {L : Type} (ops : LoopOps L) (DEBUG : Bool) (qrt : L) :
    ∃ rs : List Int, (∀ r ∈ rs, r ≠ 0) ∧
      ((rs.length < 5 ∧ (QUV_FreeRuntime ops DEBUG qrt).trace =
          rs.flatMap failedAttempt ++ [.loop_close 0] ++ [.free]) ∨
       (rs.length = 5 ∧ (QUV_FreeRuntime ops DEBUG qrt).trace =
          rs.flatMap failedAttempt ++ (if DEBUG then [.print_all_handles] else []) ++
            [.abort])) := by
  obtain ⟨rs, hrs, hcase⟩ := loop_close_retry_spec ops 5
    { qrt := ops.JS_FreeRuntime (ops.JS_FreeContext (ops.uv_close_stop
        (ops.uv_close_check (ops.uv_close_idle qrt)))), closed := 0, trace := [] }
  refine ⟨rs, hrs, ?_⟩
  rcases hcase with ⟨h1, h2, h3⟩ | ⟨h1, h2, h3⟩
  · left
    refine ⟨h1, ?_⟩
    cases DEBUG <;> simp [QUV_FreeRuntime, h2, h3]
  · right
    refine ⟨h1, ?_⟩
    cases DEBUG <;> simp [QUV_FreeRuntime, h2, h3]

theorem stateAtAttempt_shift {L : Type} (ops : LoopOps L) (q0 : L) (i : Nat) :
    stateAtAttempt ops (ops.uv_run_nowait (ops.uv_loop_close q0).2) i =
      stateAtAttempt ops q0 (i + 1) := by
  induction i with
  | zero => rfl
  | succ i ih => simp only [stateAtAttempt, ih]

theorem attemptResult_shift {L : Type} (ops : LoopOps L) (q0 : L) (i : Nat) :
    attemptResult ops (ops.uv_run_nowait (ops.uv_loop_close q0).2) i =
      attemptResult ops q0 (i + 1) := by
  simp only [attemptResult, stateAtAttempt_shift]

theorem range_map_shift {L : Type} (ops : LoopOps L) (q0 : L) (n : Nat) :
    (List.range (n + 1)).map (attemptResult ops q0) =
      attemptResult ops q0 0 ::
        (List.range n).map (attemptResult ops (ops.uv_run_nowait (ops.uv_loop_close q0).2)) := by
  rw [List.range_succ_eq_map, List.map_cons, List.map_map]
  congr 1
  apply List.map_congr_left
  intro i _
  simp [attemptResult_shift]

/-- The retry loop when all of its `n` attempts fail: every attempt is made on
the state the run after the attempt before it left, and `closed` is as
before. -/
theorem loop_close_retry_all_fail {L : Type} (ops : LoopOps L) :
    ∀ (n : Nat) (o : FreeOutcome L), (∀ i, i < n → attemptResult ops o.qrt i ≠ 0) →
      loop_close_retry ops n o =
        { qrt := stateAtAttempt ops o.qrt n, closed := o.closed,
          trace := o.trace ++
            ((List.range n).map (attemptResult ops o.qrt)).flatMap failedAttempt } := by
  intro n
  induction n with
  | zero => intro o _; simp [loop_close_retry, stateAtAttempt]
  | succ n ih =>
    intro o h
    have h0 : (ops.uv_loop_close o.qrt).1 ≠ 0 := h 0 (by omega)
    simp only [loop_close_retry, h0, if_false]
    rw [ih _ (by
      intro i hi
      show attemptResult ops (ops.uv_run_nowait (ops.uv_loop_close o.qrt).2) i ≠ 0
      rw [attemptResult_shift]; exact h (i + 1) (by omega))]
    simp only [stateAtAttempt_shift, range_map_shift, List.flatMap_cons, failedAttempt,
      attemptResult, stateAtAttempt, List.append_assoc]

/-- The retry loop when attempt number `k` is the first to succeed: the loop
ends with that attempt, `closed` is 1, and the state is the one the successful
close left. -/
theorem loop_close_retry_success {L : Type} (ops : LoopOps L) :
    ∀ (k n : Nat) (o : FreeOutcome L), k < n →
      (∀ i, i < k → attemptResult ops o.qrt i ≠ 0) → attemptResult ops o.qrt k = 0 →
      loop_close_retry ops n o =
        { qrt := (ops.uv_loop_close (stateAtAttempt ops o.qrt k)).2, closed := 1,
          trace := o.trace ++
            ((List.range k).map (attemptResult ops o.qrt)).flatMap failedAttempt ++
              [.loop_close 0] } := by
  intro k
  induction k with
  | zero =>
    intro n o hn _ h0
    obtain ⟨m, rfl⟩ : ∃ m, n = m + 1 := ⟨n - 1, by omega⟩
    have h0a : (ops.uv_loop_close o.qrt).1 = 0 := h0
    simp [loop_close_retry, h0a, stateAtAttempt]
  | succ k ih =>
    intro n o hn hf h0
    obtain ⟨m, rfl⟩ : ∃ m, n = m + 1 := ⟨n - 1, by omega⟩
    have hne : (ops.uv_loop_close o.qrt).1 ≠ 0 := hf 0 (by omega)
    simp only [loop_close_retry, hne, if_false]
    rw [ih m _ (by omega)
      (by
        intro i hi
        show attemptResult ops (ops.uv_run_nowait (ops.uv_loop_close o.qrt).2) i ≠ 0
        rw [attemptResult_shift]; exact hf (i + 1) (by omega))
      (by
        show attemptResult ops (ops.uv_run_nowait (ops.uv_loop_close o.qrt).2) k = 0
        rw [attemptResult_shift]; exact h0)]
    simp only [stateAtAttempt_shift, range_map_shift, List.flatMap_cons, failedAttempt,
      attemptResult, stateAtAttempt, List.append_assoc, List.cons_append, List.nil_append]

/-- Among the first `n` answers of the close primitive either none is a success
or one is the first success. -/
theorem first_success_or_none (r : Nat → Int) (n : Nat) :
    (∀ i, i < n → r i ≠ 0) ∨ ∃ k, k < n ∧ (∀ i, i < k → r i ≠ 0) ∧ r k = 0 := by
  induction n with
  | zero => left; intro i hi; omega
  | succ n ih =>
    rcases ih with h | ⟨k, hk, h1, h2⟩
    · by_cases hn : r n = 0
      · right; exact ⟨n, by omega, h, hn⟩
      · left
        intro i hi
        rcases Nat.lt_succ_iff_lt_or_eq.mp hi with h' | rfl
        · exact h i h'
        · exact hn
    · right; exact ⟨k, by omega, h1, h2⟩

/-- `QUV_FreeRuntime` when all five answers of the close primitive are
failures. -/
theorem QUV_FreeRuntime_all_fail {L : Type} (ops : LoopOps L) (DEBUG : Bool) (qrt : L)
    (h : ∀ i, i < 5 → attemptResult ops (teardownStart ops qrt) i ≠ 0) :
    QUV_FreeRuntime ops DEBUG qrt =
      { qrt := stateAtAttempt ops (teardownStart ops qrt) 5, closed := 0,
        trace := ((List.range 5).map (attemptResult ops (teardownStart ops qrt))).flatMap
            failedAttempt ++ (if DEBUG then [.print_all_handles] else []) ++ [.abort] } := by
  have hl := loop_close_retry_all_fail ops 5
    { qrt := teardownStart ops qrt, closed := 0, trace := [] } h
  simp only [List.nil_append] at hl
  unfold QUV_FreeRuntime
  simp only []
  rw [show ops.JS_FreeRuntime (ops.JS_FreeContext (ops.uv_close_stop
      (ops.uv_close_check (ops.uv_close_idle qrt)))) = teardownStart ops qrt from rfl, hl]
  cases DEBUG <;> simp

/-- `QUV_FreeRuntime` when answer number `k` of the close primitive, one of the
first five, is the first success. -/
theorem QUV_FreeRuntime_success {L : Type} (ops : LoopOps L) (DEBUG : Bool) (qrt : L)
    (k : Nat) (hk : k < 5)
    (hf : ∀ i, i < k → attemptResult ops (teardownStart ops qrt) i ≠ 0)
    (h0 : attemptResult ops (teardownStart ops qrt) k = 0) :
    QUV_FreeRuntime ops DEBUG qrt =
      { qrt := (ops.uv_loop_close (stateAtAttempt ops (teardownStart ops qrt) k)).2,
        closed := 1,
        trace := ((List.range k).map (attemptResult ops (teardownStart ops qrt))).flatMap
            failedAttempt ++ [.loop_close 0] ++ [.free] } := by
  have hl := loop_close_retry_success ops k 5
    { qrt := teardownStart ops qrt, closed := 0, trace := [] } hk hf h0
  simp only [List.nil_append] at hl
  unfold QUV_FreeRuntime
  simp only []
  rw [show ops.JS_FreeRuntime (ops.JS_FreeContext (ops.uv_close_stop
      (ops.uv_close_check (ops.uv_close_idle qrt)))) = teardownStart ops qrt from rfl, hl]
  cases DEBUG <;> simp

/-- C6: whatever the loop's primitives do, `QUV_FreeRuntime` tries to close the
loop at least once and at most 5 times; every attempt but the last fails (it
stops at the first success); each failed attempt is followed by exactly one run
of the loop without waiting, so exactly one run lies between two consecutive
attempts; it aborts exactly when 5 attempts were made and all failed; it frees
the instance exactly when an attempt succeeded, and then the free is the last
event and comes right after the successful attempt; it never does both.  The
attempts are the calls of the close primitive: attempt number `i` is made on
the state the handles' closes, the engine's frees and one run of the loop after
each earlier attempt have left, and its logged result is what the primitive
answers there.  So the abort happens exactly when the primitive fails on all
five of these states, the free exactly when it succeeds on one of them, and the
instance is left as the last call of a primitive left it. -/
theorem free_runtime_retries {L : Type} (ops : LoopOps L) (DEBUG : Bool) (qrt : L) :
    1 ≤ (closeAttempts (QUV_FreeRuntime ops DEBUG qrt).trace).length ∧
    (closeAttempts (QUV_FreeRuntime ops DEBUG qrt).trace).length ≤ 5 ∧
    (∀ r ∈ (closeAttempts (QUV_FreeRuntime ops DEBUG qrt).trace).dropLast, r ≠ 0) ∧
    loopEvents (QUV_FreeRuntime ops DEBUG qrt).trace =
      (closeAttempts (QUV_FreeRuntime ops DEBUG qrt).trace).flatMap
        (fun r => if r = 0 then [.loop_close r] else failedAttempt r) ∧
    (FreeEvent.abort ∈ (QUV_FreeRuntime ops DEBUG qrt).trace ↔
      (closeAttempts (QUV_FreeRuntime ops DEBUG qrt).trace).length = 5 ∧
        ∀ r ∈ closeAttempts (QUV_FreeRuntime ops DEBUG qrt).trace, r ≠ 0) ∧
    (FreeEvent.free ∈ (QUV_FreeRuntime ops DEBUG qrt).trace ↔
      ∃ r ∈ closeAttempts (QUV_FreeRuntime ops DEBUG qrt).trace, r = 0) ∧
    (FreeEvent.free ∈ (QUV_FreeRuntime ops DEBUG qrt).trace →
      ∃ pre, (QUV_FreeRuntime ops DEBUG qrt).trace = pre ++ [.loop_close 0, .free]) ∧
    ¬ (FreeEvent.abort ∈ (QUV_FreeRuntime ops DEBUG qrt).trace ∧
        FreeEvent.free ∈ (QUV_FreeRuntime ops DEBUG qrt).trace) ∧
    closeAttempts (QUV_FreeRuntime ops DEBUG qrt).trace =
      (List.range (closeAttempts (QUV_FreeRuntime ops DEBUG qrt).trace).length).map
        (attemptResult ops (teardownStart ops qrt)) ∧
    (FreeEvent.abort ∈ (QUV_FreeRuntime ops DEBUG qrt).trace ↔
      ∀ i, i < 5 → attemptResult ops (teardownStart ops qrt) i ≠ 0) ∧
    (FreeEvent.free ∈ (QUV_FreeRuntime ops DEBUG qrt).trace ↔
      ∃ i, i < 5 ∧ attemptResult ops (teardownStart ops qrt) i = 0) ∧
    (FreeEvent.abort ∈ (QUV_FreeRuntime ops DEBUG qrt).trace →
      (QUV_FreeRuntime ops DEBUG qrt).qrt = stateAtAttempt ops (teardownStart ops qrt) 5) ∧
    (FreeEvent.free ∈ (QUV_FreeRuntime ops DEBUG qrt).trace →
      (QUV_FreeRuntime ops DEBUG qrt).qrt =
        (ops.uv_loop_close (stateAtAttempt ops (teardownStart ops qrt)
          ((closeAttempts (QUV_FreeRuntime ops DEBUG qrt).trace).length - 1))).2) := by
  have hflat : ∀ l : List Int, (∀ r ∈ l, r ≠ 0) →
      l.flatMap (fun r => if r = 0 then [FreeEvent.loop_close r] else failedAttempt r) =
        l.flatMap failedAttempt := by
    intro l hl
    induction l with
    | nil => rfl
    | cons r l ih =>
      have hr : r ≠ 0 := hl r (by simp)
      simp only [List.flatMap_cons, hr, if_false]
      rw [ih (fun r1 h1 => hl r1 (by simp [h1]))]
  rcases first_success_or_none (attemptResult ops (teardownStart ops qrt)) 5 with
    hall | ⟨k, hk, hf, h0⟩
  · -- all five attempts fail
    have hex := QUV_FreeRuntime_all_fail ops DEBUG qrt hall
    have hrs : ∀ r ∈ (List.range 5).map (attemptResult ops (teardownStart ops qrt)),
        r ≠ 0 := by
      intro r hr
      obtain ⟨i, hi, rfl⟩ := List.mem_map.mp hr
      exact hall i (List.mem_range.mp hi)
    have hna := abort_not_mem_failed
      ((List.range 5).map (attemptResult ops (teardownStart ops qrt)))
    have h3 : (QUV_FreeRuntime ops DEBUG qrt).trace =
        ((List.range 5).map (attemptResult ops (teardownStart ops qrt))).flatMap failedAttempt
          ++ (if DEBUG then [.print_all_handles] else []) ++ [.abort] := by rw [hex]
    have hq : (QUV_FreeRuntime ops DEBUG qrt).qrt =
        stateAtAttempt ops (teardownStart ops qrt) 5 := by rw [hex]
    have hatt : closeAttempts (QUV_FreeRuntime ops DEBUG qrt).trace =
        (List.range 5).map (attemptResult ops (teardownStart ops qrt)) := by
      rw [h3, closeAttempts_append, closeAttempts_append, closeAttempts_failed]
      cases DEBUG <;> simp [closeAttempts]
    have hnofree : FreeEvent.free ∉ (QUV_FreeRuntime ops DEBUG qrt).trace := by
      rw [h3]
      cases DEBUG <;> simp [hna .free (Or.inr (Or.inl rfl))]
    have hab : FreeEvent.abort ∈ (QUV_FreeRuntime ops DEBUG qrt).trace := by
      rw [h3]; simp
    have hlen : ((List.range 5).map (attemptResult ops (teardownStart ops qrt))).length = 5 := by
      simp
    rw [hatt, hlen]
    refine ⟨by omega, by omega, ?_, ?_, ?_, ?_, ?_, ?_, rfl, ?_, ?_, ?_, ?_⟩
    · intro r hr; exact hrs r (List.mem_of_mem_dropLast hr)
    · rw [h3, loopEvents_append, loopEvents_append, loopEvents_failed, hflat _ hrs]
      cases DEBUG <;> simp [loopEvents]
    · simp only [hab, true_iff, true_and]
      exact hrs
    · simp only [hnofree, false_iff, not_exists, not_and]
      intro r hr; exact hrs r hr
    · intro h; exact absurd h hnofree
    · simp [hnofree]
    · simp only [hab, true_iff]; exact hall
    · simp only [hnofree, false_iff, not_exists, not_and]
      intro i hi; exact hall i hi
    · intro _; exact hq
    · intro h; exact absurd h hnofree
  · -- attempt number k is the first to succeed
    have hex := QUV_FreeRuntime_success ops DEBUG qrt k hk hf h0
    have hrs : ∀ r ∈ (List.range k).map (attemptResult ops (teardownStart ops qrt)),
        r ≠ 0 := by
      intro r hr
      obtain ⟨i, hi, rfl⟩ := List.mem_map.mp hr
      exact hf i (List.mem_range.mp hi)
    have hna := abort_not_mem_failed
      ((List.range k).map (attemptResult ops (teardownStart ops qrt)))
    have h3 : (QUV_FreeRuntime ops DEBUG qrt).trace =
        ((List.range k).map (attemptResult ops (teardownStart ops qrt))).flatMap failedAttempt
          ++ [.loop_close 0] ++ [.free] := by rw [hex]
    have hq : (QUV_FreeRuntime ops DEBUG qrt).qrt =
        (ops.uv_loop_close (stateAtAttempt ops (teardownStart ops qrt) k)).2 := by rw [hex]
    have hatt : closeAttempts (QUV_FreeRuntime ops DEBUG qrt).trace =
        (List.range k).map (attemptResult ops (teardownStart ops qrt)) ++ [0] := by
      rw [h3, closeAttempts_append, closeAttempts_append, closeAttempts_failed]
      simp [closeAttempts]
    have hlen : ((List.range k).map (attemptResult ops (teardownStart ops qrt)) ++ [0]).length
        = k + 1 := by simp
    have hnoab : FreeEvent.abort ∉ (QUV_FreeRuntime ops DEBUG qrt).trace := by
      rw [h3]; simp [hna .abort (Or.inl rfl)]
    have hfree : FreeEvent.free ∈ (QUV_FreeRuntime ops DEBUG qrt).trace := by
      rw [h3]; simp
    rw [hatt, hlen]
    refine ⟨by omega, by omega, ?_, ?_, ?_, ?_, ?_, ?_, ?_, ?_, ?_, ?_, ?_⟩
    · simpa using hrs
    · rw [h3, loopEvents_append, loopEvents_append, loopEvents_failed, List.flatMap_append,
        hflat _ hrs]
      simp [loopEvents]
    · simp [hnoab]
    · simp [hfree]
    · intro _
      exact ⟨((List.range k).map (attemptResult ops (teardownStart ops qrt))).flatMap
        failedAttempt, by rw [h3]; simp⟩
    · simp [hnoab]
    · rw [List.range_succ, List.map_append, List.map_singleton, h0]
    · simp only [hnoab, false_iff, not_forall]
      exact ⟨k, hk, by simp [h0]⟩
    · simp only [hfree, true_iff]
      exact ⟨k, hk, h0⟩
    · intro h; exact absurd h hnoab
    · intro _; rw [hq, Nat.add_sub_cancel]

/-- C9, as the code has it: when `QUV_FreeRuntime` has exhausted its retries (5
attempts to close the loop, all failed) it aborts; in a build that defines
`DEBUG` the dump of the outstanding loop handles is emitted once, right before
the abort, and in a build that does not define it no dump is emitted at all. -/
theorem dump_before_abort_only_in_debug_build {L : Type} (ops : LoopOps L) (DEBUG : Bool)
    (qrt : L) (h : FreeEvent.abort ∈ (QUV_FreeRuntime ops DEBUG qrt).trace) :
    (closeAttempts (QUV_FreeRuntime ops DEBUG qrt).trace).length = 5 ∧
    (∀ r ∈ closeAttempts (QUV_FreeRuntime ops DEBUG qrt).trace, r ≠ 0) ∧
    (DEBUG = true → ∃ pre, (QUV_FreeRuntime ops DEBUG qrt).trace =
        pre ++ [.print_all_handles, .abort] ∧ FreeEvent.print_all_handles ∉ pre) ∧
    (DEBUG = false → FreeEvent.print_all_handles ∉ (QUV_FreeRuntime ops DEBUG qrt).trace) ∧
    (FreeEvent.print_all_handles ∈ (QUV_FreeRuntime ops DEBUG qrt).trace ↔ DEBUG = true) := by
  obtain ⟨rs, hrs, hcase⟩ := QUV_FreeRuntime_spec ops DEBUG qrt
  have hna := abort_not_mem_failed rs
  rcases hcase with ⟨h1, h3⟩ | ⟨h1, h3⟩
  · rw [h3] at h
    simp [hna .abort (Or.inl rfl)] at h
  · have hatt : closeAttempts (QUV_FreeRuntime ops DEBUG qrt).trace = rs := by
      rw [h3, closeAttempts_append, closeAttempts_append, closeAttempts_failed]
      cases DEBUG <;> simp [closeAttempts]
    rw [hatt, h3]
    refine ⟨h1, hrs, ?_, ?_, ?_⟩
    · intro hd
      exact ⟨rs.flatMap failedAttempt, by simp [hd],
        hna .print_all_handles (Or.inr (Or.inr rfl))⟩
    · intro hd
      simp [hd, hna .print_all_handles (Or.inr (Or.inr rfl))]
    · cases DEBUG <;> simp [hna .print_all_handles (Or.inr (Or.inr rfl))]

/-- C9, an instance: a `DEBUG` build tears down an instance on whose loop
another module left a handle; the retries are exhausted and the dump comes
right before the abort. -/
theorem dump_before_abort_only_in_debug_build_witness :
    FreeEvent.abort ∈
      (QUV_FreeRuntime libuv true (register_handles 1 (QUV_NewRuntime2 false []))).trace ∧
    (FreeEvent.print_all_handles ∈
      (QUV_FreeRuntime libuv true (register_handles 1 (QUV_NewRuntime2 false []))).trace ↔
        true = true) :=
  ⟨by decide,
   (dump_before_abort_only_in_debug_build libuv true
      (register_handles 1 (QUV_NewRuntime2 false [])) (by decide)).2.2.2.2⟩

/-- C9 as stated fails: in a build that does not define `DEBUG`, tearing down
an instance on whose loop another module left a handle exhausts the 5 attempts
and aborts, and no dump of the loop handles is emitted. -/
theorem no_dump_without_debug :
    (QUV_FreeRuntime libuv false (register_handles 1 (QUV_NewRuntime2 false []))).trace =
      [.loop_close (-16), .run_nowait, .loop_close (-16), .run_nowait,
       .loop_close (-16), .run_nowait, .loop_close (-16), .run_nowait,
       .loop_close (-16), .run_nowait, .abort] ∧
    FreeEvent.abort ∈
      (QUV_FreeRuntime libuv false (register_handles 1 (QUV_NewRuntime2 false []))).trace ∧
    FreeEvent.print_all_handles ∉
      (QUV_FreeRuntime libuv false (register_handles 1 (QUV_NewRuntime2 false []))).trace :=
  ⟨by decide, by decide, by decide⟩

/-- C5: take an instance as `QUV_NewRuntime2` produced it, worker or not,
never run, with no handle of another module on its loop, whatever jobs are
pending in its engine and whether or not a stop was signalled meanwhile.  Its
teardown does not abort: the first attempt to close the loop fails because the
three closes are only scheduled, one run of the loop carries them out, the
second attempt succeeds (within the bound of 5), the instance is freed, and
none of the three handles is left on the loop. -/
theorem fresh_instance_is_freed (is_worker : Bool) (boot_jobs : List Job) (DEBUG : Bool)
    (rt : JSRuntime) (pending : Bool) :
    (QUV_FreeRuntime libuv DEBUG
      { QUV_NewRuntime2 is_worker boot_jobs with rt := rt, pending := pending }).trace =
      [.loop_close (-16), .run_nowait, .loop_close 0, .free] ∧
    FreeEvent.abort ∉ (QUV_FreeRuntime libuv DEBUG
      { QUV_NewRuntime2 is_worker boot_jobs with rt := rt, pending := pending }).trace ∧
    (closeAttempts (QUV_FreeRuntime libuv DEBUG
      { QUV_NewRuntime2 is_worker boot_jobs with rt := rt, pending := pending }).trace).length
      ≤ 5 ∧
    (QUV_FreeRuntime libuv DEBUG
      { QUV_NewRuntime2 is_worker boot_jobs with rt := rt, pending := pending }).closed = 1 ∧
    (QUV_FreeRuntime libuv DEBUG
      { QUV_NewRuntime2 is_worker boot_jobs with rt := rt, pending := pending }).qrt.idle.queued
      = false ∧
    (QUV_FreeRuntime libuv DEBUG
      { QUV_NewRuntime2 is_worker boot_jobs with rt := rt, pending := pending }).qrt.check.queued
      = false ∧
    (QUV_FreeRuntime libuv DEBUG
      { QUV_NewRuntime2 is_worker boot_jobs with rt := rt, pending := pending }).qrt.stop.queued
      = false ∧
    uv__has_closing_handles (QUV_FreeRuntime libuv DEBUG
      { QUV_NewRuntime2 is_worker boot_jobs with rt := rt, pending := pending }).qrt = false ∧
    uv__has_active_handles (QUV_FreeRuntime libuv DEBUG
      { QUV_NewRuntime2 is_worker boot_jobs with rt := rt, pending := pending }).qrt = false := by
  have htr : (QUV_FreeRuntime libuv DEBUG
      { QUV_NewRuntime2 is_worker boot_jobs with rt := rt, pending := pending }).trace =
      [.loop_close (-16), .run_nowait, .loop_close 0, .free] := by
    cases is_worker <;> cases DEBUG <;> cases pending <;> rfl
  refine ⟨htr, ?_, ?_, ?_, ?_, ?_, ?_, ?_, ?_⟩
  · rw [htr]; decide
  · rw [htr]; decide
  all_goals
    cases is_worker <;> cases DEBUG <;> cases pending <;>
      simp [QUV_FreeRuntime, loop_close_retry, libuv, uv_loop_close, uv_run_nowait,
        uv_run_after_poll, uv__run_idle, uv__idle_cb, uv__io_poll_dispatch, uv__run_check,
        uv__run_closing_handles, uv__finish_close, uv__loop_alive, uv__has_active_handles,
        uv__has_closing_handles, uv_close, QUV_NewRuntime2, uv_handle_init, uv_async_init]

/-! ## Run and stop -/

theorem execute_pending_jobs_frame : ∀ (n : Nat) (qrt : QUVRuntime),
    (execute_pending_jobs n qrt).loop = qrt.loop ∧
    (execute_pending_jobs n qrt).check = qrt.check ∧
    (execute_pending_jobs n qrt).idle = qrt.idle ∧
    (execute_pending_jobs n qrt).stop = qrt.stop ∧
    (execute_pending_jobs n qrt).pending = qrt.pending ∧
    (execute_pending_jobs n qrt).is_worker = qrt.is_worker ∧
    (execute_pending_jobs n qrt).iterations = qrt.iterations ∧
    (execute_pending_jobs n qrt).stop_calls = qrt.stop_calls := by
  intro n
  induction n with
  | zero => intro qrt; simp [execute_pending_jobs]
  | succ n ih =>
    intro qrt
    match hq : qrt.rt.job_list with
    | [] => rw [execute_pending_jobs_nil n qrt hq]; simp
    | j :: q =>
      cases hf : j.fails with
      | true => rw [execute_pending_jobs_fail n qrt j q hq hf]; simp [advance]
      | false =>
        rw [execute_pending_jobs_ok n qrt j q hq hf]
        have := ih (advance 1 qrt)
        simpa [advance] using this

theorem uv__check_cb_frame (qrt : QUVRuntime) :
    (uv__check_cb qrt).loop = qrt.loop ∧
    (uv__check_cb qrt).check = qrt.check ∧
    (uv__check_cb qrt).stop = qrt.stop ∧
    (uv__check_cb qrt).pending = qrt.pending ∧
    (uv__check_cb qrt).is_worker = qrt.is_worker ∧
    (uv__check_cb qrt).iterations = qrt.iterations ∧
    (uv__check_cb qrt).stop_calls = qrt.stop_calls := by
  obtain ⟨h1, h2, _, h4, h5, h6, h7, h8⟩ :=
    execute_pending_jobs_frame (weightList qrt.rt.job_list + 1) qrt
  unfold uv__check_cb uv__maybe_idle
  split <;> simp [h1, h2, h4, h5, h6, h7, h8]

theorem uv__run_check_frame (qrt : QUVRuntime) :
    (uv__run_check qrt).loop = qrt.loop ∧
    (uv__run_check qrt).check = qrt.check ∧
    (uv__run_check qrt).stop = qrt.stop ∧
    (uv__run_check qrt).pending = qrt.pending ∧
    (uv__run_check qrt).is_worker = qrt.is_worker ∧
    (uv__run_check qrt).iterations = qrt.iterations ∧
    (uv__run_check qrt).stop_calls = qrt.stop_calls := by
  unfold uv__run_check
  split
  · exact uv__check_cb_frame qrt
  · simp

/-- An iteration whose I/O wait finds the wakeup of the stop handle pending runs
the stop callback once: the stop request is set and the wakeup is consumed. -/
theorem uv_run_after_poll_pending (qrt : QUVRuntime) (hp : qrt.pending = true)
    (ha : qrt.stop.active = true) :
    (uv_run_after_poll qrt).loop.stop_flag = true ∧
    (uv_run_after_poll qrt).iterations = qrt.iterations + 1 ∧
    (uv_run_after_poll qrt).stop_calls = qrt.stop_calls + 1 ∧
    (uv_run_after_poll qrt).pending = false := by
  obtain ⟨h1, _, _, h4, _, h6, h7⟩ :=
    uv__run_check_frame (uv__stop { qrt with pending := false })
  simp only [uv_run_after_poll, uv__io_poll_dispatch, hp, ha, if_true, uv__run_closing_handles]
  rw [h1, h4, h6, h7]
  simp [uv__stop, uv_stop]

theorem uv_run_default_stopped (n : Nat) (qrt : QUVRuntime) (h : qrt.loop.stop_flag = true) :
    uv_run_default (n + 1) qrt =
      some (.returned { qrt with loop := { qrt.loop with stop_flag := false } }) := by
  simp [uv_run_default, h]

theorem uv_run_default_dead (n : Nat) (qrt : QUVRuntime) (h : uv__loop_alive qrt = false) :
    uv_run_default (n + 1) qrt =
      some (.returned { qrt with loop := { qrt.loop with stop_flag := false } }) := by
  simp [uv_run_default, h]

theorem uv__run_idle_eq (qrt : QUVRuntime) : uv__run_idle qrt = qrt := by
  unfold uv__run_idle uv__idle_cb; split <;> rfl

theorem uv_run_default_step (n : Nat) (qrt : QUVRuntime) (ha : uv__loop_alive qrt = true)
    (hs : qrt.loop.stop_flag = false) (hp : qrt.pending = true) :
    uv_run_default (n + 1) qrt = uv_run_default n (uv_run_after_poll qrt) := by
  simp [uv_run_default, ha, hs, uv__run_idle_eq, uv__io_poll_blocks, hp]

theorem QUV_Stop_idem (qrt : QUVRuntime) : QUV_Stop (QUV_Stop qrt) = QUV_Stop qrt := by
  unfold QUV_Stop uv_async_send
  cases h : qrt.pending <;> simp [h]

theorem QUV_Stop_iterate (qrt : QUVRuntime) : ∀ n, 1 ≤ n →
    Nat.iterate QUV_Stop n qrt = QUV_Stop qrt := by
  intro n
  induction n with
  | zero => intro h; omega
  | succ n ih =>
    intro _
    rw [Function.iterate_succ_apply']
    cases n with
    | zero => rfl
    | succ m => rw [ih (by omega), QUV_Stop_idem]

theorem QUV_Stop_pending (qrt : QUVRuntime) : (QUV_Stop qrt).pending = true := by
  unfold QUV_Stop uv_async_send
  cases h : qrt.pending <;> simp [h]

theorem QUV_Stop_frame (qrt : QUVRuntime) :
    (QUV_Stop qrt).rt = qrt.rt ∧ (QUV_Stop qrt).loop = qrt.loop ∧
    (QUV_Stop qrt).check = qrt.check ∧ (QUV_Stop qrt).idle = qrt.idle ∧
    (QUV_Stop qrt).stop = qrt.stop ∧ (QUV_Stop qrt).is_worker = qrt.is_worker ∧
    (QUV_Stop qrt).iterations = qrt.iterations ∧
    (QUV_Stop qrt).stop_calls = qrt.stop_calls := by
  unfold QUV_Stop uv_async_send
  cases h : qrt.pending <;> simp [h]

theorem QUV_Run_prepare_frame (qrt : QUVRuntime) :
    (QUV_Run_prepare qrt).loop = qrt.loop ∧
    (QUV_Run_prepare qrt).pending = qrt.pending ∧
    (QUV_Run_prepare qrt).is_worker = qrt.is_worker ∧
    (QUV_Run_prepare qrt).iterations = qrt.iterations ∧
    (QUV_Run_prepare qrt).stop_calls = qrt.stop_calls ∧
    (QUV_Run_prepare qrt).stop.active = qrt.stop.active ∧
    (QUV_Run_prepare qrt).stop.closing = qrt.stop.closing ∧
    (QUV_Run_prepare qrt).stop.ref = (qrt.is_worker && qrt.stop.ref) ∧
    (QUV_Run_prepare qrt).check.active = true ∧
    (QUV_Run_prepare qrt).check.ref = false ∧
    (QUV_Run_prepare qrt).check.closing = qrt.check.closing ∧
    (QUV_Run_prepare qrt).idle.closing = qrt.idle.closing ∧
    (QUV_Run_prepare qrt).idle.ref = qrt.idle.ref := by
  unfold QUV_Run_prepare uv__maybe_idle
  cases hw : qrt.is_worker <;> simp [hw, uv_handle_start, uv_handle_stop, uv_unref] <;>
    split <;> simp

theorem QUV_Run_prepare_idle_active (qrt : QUVRuntime) :
    (QUV_Run_prepare qrt).idle.active = JS_IsJobPending qrt.rt := by
  unfold QUV_Run_prepare
  simp only [uv__maybe_idle_active]
  split <;> rfl

/-- What keeps the loop alive when `QUV_Run` enters it: a worker's referenced
stop handle, a pending job (through the idle handle), or a handle of another
module. -/
theorem uv__loop_alive_prepare (qrt : QUVRuntime) (hu : Usable qrt) :
    uv__loop_alive (QUV_Run_prepare qrt) =
      (qrt.is_worker || JS_IsJobPending qrt.rt || decide (0 < qrt.loop.other_handles)) := by
  obtain ⟨h1, h2, h3, h4, h5, h6, h7⟩ := hu
  obtain ⟨g1, g2, g3, g4, g5, g6, g7, g8, g9, g10, g11, g12, g13⟩ := QUV_Run_prepare_frame qrt
  have hidle := QUV_Run_prepare_idle_active qrt
  simp only [uv__loop_alive, uv__has_active_handles, uv__has_closing_handles,
    g1, g6, g7, g8, g9, g10, g11, g12, g13, h1, h2, h3, h4, h6, hidle, QUV_Run_prepare_rt]
  cases hw : qrt.is_worker
  · simp
  · simp [h7 hw]

/-- C4, as the code has it: `QUV_Stop` is idempotent and may precede `QUV_Run`.
For every usable instance, worker or not, `n ≥ 1` calls of `QUV_Stop` leave the
state one call leaves, and the following `QUV_Run` returns without parking in
the I/O wait, after at most one loop iteration and with the stop request clear
again.  When something keeps the loop alive on entry (always so for a worker),
that one iteration dispatches the pending wakeup: `uv__stop` runs once and sets
the stop request.  When nothing does (a non-worker instance without pending job
and without handle of another module), `QUV_Run` returns before any iteration:
`uv__stop` does not run and the wakeup stays pending. -/
theorem stop_before_run_returns (qrt : QUVRuntime) (hu : Usable qrt) (n : Nat) (hn : 1 ≤ n)
    (fuel : Nat) :
    Nat.iterate QUV_Stop n qrt = QUV_Stop qrt ∧
    (∃ q, QUV_Run (fuel + 2) (Nat.iterate QUV_Stop n qrt) = some (.returned q) ∧
      q.loop.stop_flag = false ∧
      (uv__loop_alive (QUV_Run_prepare (QUV_Stop qrt)) = true →
        q.iterations = qrt.iterations + 1 ∧ q.stop_calls = qrt.stop_calls + 1 ∧
          q.pending = false) ∧
      (uv__loop_alive (QUV_Run_prepare (QUV_Stop qrt)) = false →
        q.iterations = qrt.iterations ∧ q.stop_calls = qrt.stop_calls ∧ q.pending = true)) ∧
    uv__loop_alive (QUV_Run_prepare (QUV_Stop qrt)) =
      (qrt.is_worker || JS_IsJobPending qrt.rt || decide (0 < qrt.loop.other_handles)) := by
  obtain ⟨s1, s2, s3, s4, s5, s6, s7, s8⟩ := QUV_Stop_frame qrt
  have hus : Usable (QUV_Stop qrt) := by
    unfold Usable at hu ⊢
    rw [s2, s3, s4, s5, s6]; exact hu
  obtain ⟨g1, g2, g3, g4, g5, g6, g7, g8, g9, g10, g11, g12, g13⟩ :=
    QUV_Run_prepare_frame (QUV_Stop qrt)
  have hp : (QUV_Run_prepare (QUV_Stop qrt)).pending = true := by
    rw [g2]; exact QUV_Stop_pending qrt
  have hsf : (QUV_Run_prepare (QUV_Stop qrt)).loop.stop_flag = false := by
    rw [g1, s2]; exact hu.2.2.2.2.1
  have hact : (QUV_Run_prepare (QUV_Stop qrt)).stop.active = true := by
    rw [g6, s5]; exact hu.2.2.2.1
  refine ⟨QUV_Stop_iterate qrt n hn, ?_, ?_⟩
  · rw [QUV_Stop_iterate qrt n hn]
    unfold QUV_Run
    cases ha : uv__loop_alive (QUV_Run_prepare (QUV_Stop qrt)) with
    | false =>
      rw [uv_run_default_dead _ _ ha]
      refine ⟨_, rfl, rfl, by simp, ?_⟩
      intro _
      exact ⟨by simp [g4, s7], by simp [g5, s8], by simp [hp]⟩
    | true =>
      obtain ⟨p1, p2, p3, p4⟩ := uv_run_after_poll_pending _ hp hact
      rw [uv_run_default_step _ _ ha hsf hp, uv_run_default_stopped _ _ p1]
      refine ⟨_, rfl, rfl, ?_, by simp⟩
      intro _
      exact ⟨by simp [p2, g4, s7], by simp [p3, g5, s8], by simp [p4]⟩
  · rw [uv__loop_alive_prepare _ hus, s1, s2, s6]

/-- C4, an instance: three calls of `QUV_Stop` on a fresh worker instance. -/
theorem stop_before_run_returns_witness :
    Usable (QUV_NewRuntime2 true []) ∧ 1 ≤ 3 ∧
    Nat.iterate QUV_Stop 3 (QUV_NewRuntime2 true []) = QUV_Stop (QUV_NewRuntime2 true []) :=
  ⟨by decide, by decide,
   (stop_before_run_returns (QUV_NewRuntime2 true []) (by decide) 3 (by decide) 0).1⟩

/-- C4 as stated fails: on a fresh non-worker instance without pending job,
`QUV_Run` after `QUV_Stop` does return at once, but not because the wakeup ran
`uv__stop`: no iteration runs, the stop callback is not called, and the wakeup
is still pending when `QUV_Run` has returned. -/
theorem stop_before_run_skips_stop_callback :
    Usable (QUV_NewRuntime2 false []) ∧
    (QUV_Run 2 (QUV_Stop (QUV_NewRuntime2 false []))).map RunResult.hasReturned = some true ∧
    (QUV_Run 2 (QUV_Stop (QUV_NewRuntime2 false []))).map (fun r => r.qrt.iterations)
      = some 0 ∧
    (QUV_Run 2 (QUV_Stop (QUV_NewRuntime2 false []))).map (fun r => r.qrt.stop_calls)
      = some 0 ∧
    (QUV_Run 2 (QUV_Stop (QUV_NewRuntime2 false []))).map (fun r => r.qrt.pending)
      = some true :=
  ⟨by decide, by decide, by decide, by decide, by decide⟩

/-- C3: take a usable instance with no pending job, no handle of another module
on its loop and no stop signalled.  If it is not a worker, the check and stop
handles are unreferenced and the idle handle is stopped when the loop is
entered, nothing keeps the loop alive, and `QUV_Run` returns before any
iteration, without the stop callback having run.  If it is a worker, the stop
handle is still referenced and keeps the loop alive: `QUV_Run` parks in the I/O
wait and stays parked as long as no stop is signalled; once `QUV_Stop` is called
(from another thread) the wait ends, the stop callback runs and `QUV_Run`
returns. -/
theorem run_without_pending_work (qrt : QUVRuntime) (hu : Usable qrt)
    (hj : qrt.rt.job_list = []) (ho : qrt.loop.other_handles = 0)
    (hp : qrt.pending = false) (fuel : Nat) :
    (qrt.is_worker = false →
      (QUV_Run_prepare qrt).check.ref = false ∧ (QUV_Run_prepare qrt).stop.ref = false ∧
      (QUV_Run_prepare qrt).idle.active = false ∧
      uv__loop_alive (QUV_Run_prepare qrt) = false ∧
      ∃ q, QUV_Run (fuel + 1) qrt = some (.returned q) ∧ q.iterations = qrt.iterations ∧
        q.stop_calls = qrt.stop_calls ∧ q.pending = false) ∧
    (qrt.is_worker = true →
      (QUV_Run_prepare qrt).stop.ref = true ∧
      uv__loop_alive (QUV_Run_prepare qrt) = true ∧
      QUV_Run (fuel + 1) qrt = some (.blocked (QUV_Run_prepare qrt)) ∧
      uv_run_resume (fuel + 1) (QUV_Run_prepare qrt) = some (.blocked (QUV_Run_prepare qrt)) ∧
      ∃ q, uv_run_resume (fuel + 1) (QUV_Stop (QUV_Run_prepare qrt)) = some (.returned q) ∧
        q.stop_calls = qrt.stop_calls + 1 ∧ q.loop.stop_flag = false) := by
  have halive := uv__loop_alive_prepare qrt hu
  obtain ⟨h1, h2, h3, h4, h5, h6, h7⟩ := hu
  obtain ⟨g1, g2, g3, g4, g5, g6, g7, g8, g9, g10, g11, g12, g13⟩ := QUV_Run_prepare_frame qrt
  have hidle : (QUV_Run_prepare qrt).idle.active = false := by
    rw [QUV_Run_prepare_idle_active]; simp [JS_IsJobPending, hj]
  have hnp : JS_IsJobPending qrt.rt = false := by simp [JS_IsJobPending, hj]
  rw [hnp, ho] at halive
  constructor
  · intro hw
    rw [hw] at halive
    simp only [Bool.or_self, Nat.lt_irrefl, decide_False] at halive
    refine ⟨g10, by rw [g8, hw]; rfl, hidle, halive, ?_⟩
    unfold QUV_Run
    rw [uv_run_default_dead _ _ halive]
    exact ⟨_, rfl, by simp [g4], by simp [g5], by simp [g2, hp]⟩
  · intro hw
    rw [hw] at halive
    simp only [Bool.true_or] at halive
    have hsf : (QUV_Run_prepare qrt).loop.stop_flag = false := by rw [g1]; exact h5
    have hpp : (QUV_Run_prepare qrt).pending = false := by rw [g2]; exact hp
    have href : (QUV_Run_prepare qrt).stop.ref = true := by rw [g8, hw, h7 hw]; rfl
    have hact : uv__has_active_handles (QUV_Run_prepare qrt) = true := by
      simp [uv__has_active_handles, g6, h4, href]
    have hcl : uv__has_closing_handles (QUV_Run_prepare qrt) = false := by
      simp [uv__has_closing_handles, g7, g11, g12, h1, h2, h3]
    have hto : uv_backend_timeout (QUV_Run_prepare qrt) = -1 := by
      simp [uv_backend_timeout, hsf, hact, hidle, hcl]
    refine ⟨href, halive, ?_, ?_, ?_⟩
    · unfold QUV_Run
      simp [uv_run_default, halive, hsf, uv__run_idle_eq, uv__io_poll_blocks, hpp, hto]
    · simp [uv_run_resume, uv__io_poll_blocks, hpp]
    · obtain ⟨s1, s2, s3, s4, s5, s6, s7, s8⟩ := QUV_Stop_frame (QUV_Run_prepare qrt)
      have hsp := QUV_Stop_pending (QUV_Run_prepare qrt)
      obtain ⟨p1, p2, p3, p4⟩ := uv_run_after_poll_pending (QUV_Stop (QUV_Run_prepare qrt)) hsp
        (by rw [s5, g6]; exact h4)
      simp only [uv_run_resume, uv__io_poll_blocks, hsp, Bool.not_true, Bool.false_and,
        Bool.false_eq_true, if_false]
      rw [uv_run_default_stopped _ _ p1]
      exact ⟨_, rfl, by simp [p3, s8, g5], rfl⟩

/-- C3, an instance: a fresh worker and a fresh foreground instance. -/
theorem run_without_pending_work_witness :
    Usable (QUV_NewRuntime2 true []) ∧
    QUV_Run 1 (QUV_NewRuntime2 true []) =
      some (.blocked (QUV_Run_prepare (QUV_NewRuntime2 true []))) :=
  ⟨by decide,
   ((run_without_pending_work (QUV_NewRuntime2 true []) (by decide) rfl rfl rfl 0).2 rfl).2.2.1⟩

/-! ## File evaluation -/

/-- A read that delivers bytes appends exactly these bytes and the loop goes
on. -/
theorem load_file_loop_data (st : Storage) (fd : Int) (n : Nat) (dbuf : DynBuf)
    (log : List Int) (bs : List Nat) (h : st.read fd dbuf.size = .data bs)
    (hne : bs.take 4096 ≠ []) :
    load_file_loop st fd (n + 1) dbuf log =
      load_file_loop st fd n { buf := dbuf.buf ++ bs.take 4096 }
        (log ++ [((bs.take 4096).length : Int)]) := by
  have hpos : ¬ (((bs.take 4096).length : Int) ≤ 0) := by
    have : 0 < (bs.take 4096).length := List.length_pos.mpr hne
    omega
  simp only [load_file_loop, uv_fs_read, h, hpos, if_false, dbuf_put, ne_eq, not_true_eq_false,
    Int.toNat_ofNat, List.take_length]

/-- A read that delivers nothing ends the loop with status 0. -/
theorem load_file_loop_eof (st : Storage) (fd : Int) (n : Nat) (dbuf : DynBuf)
    (log : List Int) (bs : List Nat) (h : st.read fd dbuf.size = .data bs)
    (he : bs.take 4096 = []) :
    load_file_loop st fd (n + 1) dbuf log = some (0, dbuf, log ++ [0]) := by
  simp [load_file_loop, uv_fs_read, h, he]

/-- A read that fails ends the loop with the negative error code. -/
theorem load_file_loop_error (st : Storage) (fd : Int) (n : Nat) (dbuf : DynBuf)
    (log : List Int) (code : Nat) (h : st.read fd dbuf.size = .error code) :
    load_file_loop st fd (n + 1) dbuf log =
      some (-((code : Int) + 1), dbuf, log ++ [-((code : Int) + 1)]) := by
  have : -((code : Int) + 1) ≤ 0 := by omega
  simp only [load_file_loop, uv_fs_read, h, this, if_true]

/-- On a file read in chunks the loop ends with status 0 and the whole content
in the buffer, when the bound covers one read per byte still to read and one
more. -/
theorem load_file_loop_chunks (st : Storage) (fd : Int) (content : List Nat)
    (hread : ReadsInChunks st fd content) :
    ∀ (n : Nat) (dbuf : DynBuf) (rest : List Nat) (log : List Int),
      content = dbuf.buf ++ rest → rest.length + 1 ≤ n →
      ∃ log1, load_file_loop st fd n dbuf log = some (0, { buf := content }, log1) := by
  intro n
  induction n with
  | zero => intro dbuf rest log _ h; omega
  | succ n ih =>
    intro dbuf rest log hc hn
    have hdrop : content.drop dbuf.size = rest := by
      rw [hc]; exact List.drop_left' rfl
    have hlen : content.length = dbuf.size + rest.length := by
      rw [hc]; simp [DynBuf.size]
    cases rest with
    | nil =>
      have h0 := (hread dbuf.size).2 (by simp at hlen; omega)
      rw [load_file_loop_eof st fd n dbuf log [] h0 rfl]
      refine ⟨log ++ [0], ?_⟩
      cases dbuf
      simp_all
    | cons b rest =>
      obtain ⟨k, hk1, hk2, hk⟩ := (hread dbuf.size).1 (by simp at hlen; omega)
      rw [hdrop] at hk
      have htk : ((b :: rest).take k).take 4096 = (b :: rest).take k := by
        rw [List.take_take, Nat.min_eq_right hk2]
      have hne : ((b :: rest).take k).take 4096 ≠ [] := by
        rw [htk]
        obtain ⟨m, rfl⟩ : ∃ m, k = m + 1 := ⟨k - 1, by omega⟩
        simp
      rw [load_file_loop_data st fd n dbuf log _ hk hne, htk]
      apply ih { buf := dbuf.buf ++ (b :: rest).take k } ((b :: rest).drop k)
      · show content = (dbuf.buf ++ (b :: rest).take k) ++ (b :: rest).drop k
        rw [List.append_assoc, List.take_append_drop]; exact hc
      · have : ((b :: rest).drop k).length + 1 ≤ (b :: rest).length := by
          rw [List.length_drop]
          simp only [List.length_cons]
          omega
        simp only [List.length_cons] at this hn
        omega

/-- The shape of every run of the read loop that ends: the storage results
logged are positive but the last, which is not and is the status returned. -/
theorem load_file_loop_log (st : Storage) (fd : Int) :
    ∀ (n : Nat) (dbuf : DynBuf) (log : List Int) (res : Int × DynBuf × List Int),
      load_file_loop st fd n dbuf log = some res →
      res.1 ≤ 0 ∧ ∃ pos : List Int, (∀ x ∈ pos, 0 < x) ∧ res.2.2 = log ++ pos ++ [res.1] := by
  intro n
  induction n with
  | zero => intro dbuf log res h; simp [load_file_loop] at h
  | succ n ih =>
    intro dbuf log res h
    cases hr : st.read fd dbuf.size with
    | error code =>
      rw [load_file_loop_error st fd n dbuf log code hr] at h
      simp only [Option.some.injEq] at h
      subst h
      exact ⟨by simp; omega, [], by simp, by simp⟩
    | data bs =>
      by_cases he : bs.take 4096 = []
      · rw [load_file_loop_eof st fd n dbuf log bs hr he] at h
        simp only [Option.some.injEq] at h
        subst h
        exact ⟨by simp, [], by simp, by simp⟩
      · rw [load_file_loop_data st fd n dbuf log bs hr he] at h
        obtain ⟨h1, pos, hpos, hlog⟩ := ih _ _ res h
        refine ⟨h1, ((bs.take 4096).length : Int) :: pos, ?_, ?_⟩
        · intro x hx
          rcases List.mem_cons.mp hx with rfl | hx
          · have : 0 < (bs.take 4096).length := List.length_pos.mpr he
            omega
          · exact hpos x hx
        · rw [hlog]; simp

/-- The read loop ends when the file is finite: if no read at or past offset
`bound` delivers bytes, `bound - size + 1` rounds suffice. -/
theorem load_file_loop_ends (st : Storage) (fd : Int) (bound : Nat)
    (hfin : ∀ off, bound ≤ off → ∀ bs, st.read fd off = .data bs → bs = []) :
    ∀ (n : Nat) (dbuf : DynBuf) (log : List Int), (bound - dbuf.size) + 1 ≤ n →
      ∃ res, load_file_loop st fd n dbuf log = some res := by
  intro n
  induction n with
  | zero => intro dbuf log h; omega
  | succ n ih =>
    intro dbuf log hn
    cases hr : st.read fd dbuf.size with
    | error code => exact ⟨_, load_file_loop_error st fd n dbuf log code hr⟩
    | data bs =>
      by_cases he : bs.take 4096 = []
      · exact ⟨_, load_file_loop_eof st fd n dbuf log bs hr he⟩
      · rw [load_file_loop_data st fd n dbuf log bs hr he]
        have hlt : dbuf.size < bound := by
          by_contra hge
          have := hfin dbuf.size (by omega) bs hr
          subst this
          simp at he
        have hpos : 0 < (bs.take 4096).length := List.length_pos.mpr he
        apply ih
        simp only [DynBuf.size, List.length_append] at hlt hn ⊢
        omega

/-- C10: let the file open and the storage read deliver, at every offset inside
the file, a non-empty run of at most 4096 bytes of the content from that offset
on, and nothing at the end.  Then `load_file` ends (one round per byte and one
more always suffice) with result 0 and leaves in the buffer the bytes of the
file in their order followed by one sentinel byte 0, so the buffer size is the
file length plus 1; and this buffer with this size is what `QUV_EvalFile` hands
to the module sniff and to the engine's evaluation. -/
theorem load_file_reads_whole_file (st : Storage) (filename : String) (content : List Nat)
    (hopen : 0 ≤ uv_fs_open st filename)
    (hread : ReadsInChunks st (uv_fs_open st filename) content)
    (fuel : Nat) (hfuel : content.length + 1 ≤ fuel) :
    (∃ io, load_file st fuel dbuf_init filename = some (0, { buf := content ++ [0] }, io)) ∧
    DynBuf.size { buf := content ++ [0] } = content.length + 1 ∧
    (∀ (e : Engine) (flags : Int), ∃ out, QUV_EvalFile e st fuel filename flags = some out ∧
      out.ret = e.JS_Eval (content ++ [0]) (content.length + 1) filename
        (if flags = -1 then
          (if e.JS_DetectModule (content ++ [0]) (content.length + 1) then JS_EVAL_TYPE_MODULE
            else JS_EVAL_TYPE_GLOBAL)
          else flags) ∧
      out.calls =
        (if flags = -1 then [.detectModule (content ++ [0]) (content.length + 1)] else []) ++
          [.eval (content ++ [0]) (content.length + 1) filename
            (if flags = -1 then
              (if e.JS_DetectModule (content ++ [0]) (content.length + 1)
                then JS_EVAL_TYPE_MODULE else JS_EVAL_TYPE_GLOBAL)
              else flags)]) := by
  obtain ⟨log1, hloop⟩ := load_file_loop_chunks st (uv_fs_open st filename) content hread
    fuel dbuf_init content [uv_fs_open st filename] (by simp [dbuf_init]) hfuel
  have hload : load_file st fuel dbuf_init filename =
      some (0, { buf := content ++ [0] }, log1) := by
    have hn : ¬ uv_fs_open st filename < 0 := by omega
    simp [load_file, hn, hloop, dbuf_putc, dbuf_put]
  refine ⟨⟨log1, hload⟩, by simp [DynBuf.size], ?_⟩
  intro e flags
  by_cases hf : flags = -1
  · simp [QUV_EvalFile, hload, hf, DynBuf.size]
  · simp [QUV_EvalFile, hload, hf, DynBuf.size]

/-- C10, an instance: a two-byte file read one byte at a time. -/
theorem load_file_reads_whole_file_witness :
    0 ≤ uv_fs_open (chunkedStorage [104, 105] 1 "none") "a.js" ∧
    (∃ io, load_file (chunkedStorage [104, 105] 1 "none") 3 dbuf_init "a.js" =
      some (0, { buf := [104, 105] ++ [0] }, io)) :=
  ⟨by decide,
   (load_file_reads_whole_file (chunkedStorage [104, 105] 1 "none") "a.js" [104, 105]
      (by decide)
      (by
        intro off
        constructor
        · intro _; exact ⟨1, by decide, by decide, rfl⟩
        · intro h
          show ReadResult.data _ = ReadResult.data []
          simp only [List.length_cons, List.length_nil] at h
          rw [List.drop_of_length_le (by simpa using h)]
          rfl)
      3 (by decide)).1⟩

/-- `QUV_EvalFile` in terms of what `load_file` returned. -/
theorem QUV_EvalFile_of_load (e : Engine) (st : Storage) (fuel : Nat) (filename : String)
    (flags : Int) (r : Int) (dbuf : DynBuf) (io : List Int)
    (h : load_file st fuel dbuf_init filename = some (r, dbuf, io)) :
    QUV_EvalFile e st fuel filename flags =
      some (if r ≠ 0 then
          { ret := .exception, calls := [.throwReferenceError filename], io := io }
        else
          { ret := e.JS_Eval dbuf.buf dbuf.size filename
              (if flags = -1 then
                (if e.JS_DetectModule dbuf.buf dbuf.size then JS_EVAL_TYPE_MODULE
                  else JS_EVAL_TYPE_GLOBAL)
                else flags)
            calls := (if flags = -1 then [.detectModule dbuf.buf dbuf.size] else []) ++
              [.eval dbuf.buf dbuf.size filename
                (if flags = -1 then
                  (if e.JS_DetectModule dbuf.buf dbuf.size then JS_EVAL_TYPE_MODULE
                    else JS_EVAL_TYPE_GLOBAL)
                  else flags)]
            io := io }) := by
  by_cases hr : r = 0 <;> by_cases hf : flags = -1 <;> simp [QUV_EvalFile, h, hr, hf]

theorem DynBuf.size_append (dbuf : DynBuf) (bs : List Nat) :
    DynBuf.size { buf := dbuf.buf ++ bs } = dbuf.size + bs.length := by
  simp [DynBuf.size]

/-- The read loop of `load_file` does what reading the file from the storage
comes to: it does not end when that does not, it ends with the negative code of
a failed read, and it ends with status 0 and the bytes read appended to the
buffer when the file was read to its end. -/
theorem load_file_loop_readWhole (st : Storage) (fd : Int) :
    ∀ (n : Nat) (dbuf : DynBuf) (log : List Int),
      (readWhole st fd n dbuf.size = none → load_file_loop st fd n dbuf log = none) ∧
      (∀ c, readWhole st fd n dbuf.size = some (.failed c) →
        c < 0 ∧ ∃ d log1, load_file_loop st fd n dbuf log = some (c, d, log1)) ∧
      (∀ rest, readWhole st fd n dbuf.size = some (.content rest) →
        ∃ log1, load_file_loop st fd n dbuf log =
          some (0, { buf := dbuf.buf ++ rest }, log1)) := by
  intro n
  induction n with
  | zero =>
    intro dbuf log
    simp [readWhole, load_file_loop]
  | succ n ih =>
    intro dbuf log
    cases hr : st.read fd dbuf.size with
    | error code =>
      rw [load_file_loop_error st fd n dbuf log code hr]
      simp only [readWhole, hr]
      refine ⟨by simp, ?_, by simp⟩
      intro c hc
      simp only [Option.some.injEq, Loaded.failed.injEq] at hc
      subst hc
      exact ⟨by omega, _, _, rfl⟩
    | data bs =>
      by_cases he : bs.take 4096 = []
      · rw [load_file_loop_eof st fd n dbuf log bs hr he]
        simp only [readWhole, hr, he, if_true]
        refine ⟨by simp, by simp, ?_⟩
        intro rest hrest
        simp only [Option.some.injEq, Loaded.content.injEq] at hrest
        subst hrest
        exact ⟨log ++ [0], by simp⟩
      · rw [load_file_loop_data st fd n dbuf log bs hr he]
        obtain ⟨i1, i2, i3⟩ := ih { buf := dbuf.buf ++ bs.take 4096 }
          (log ++ [((bs.take 4096).length : Int)])
        rw [DynBuf.size_append] at i1 i2 i3
        simp only [readWhole, hr, he, if_false]
        cases hw : readWhole st fd n (dbuf.size + (bs.take 4096).length) with
        | none => exact ⟨fun _ => i1 hw, by simp, by simp⟩
        | some l =>
          cases l with
          | failed c0 =>
            refine ⟨by simp, ?_, by simp⟩
            intro c hc
            simp only [Option.some.injEq, Loaded.failed.injEq] at hc
            subst hc
            exact i2 c0 hw
          | content rest0 =>
            refine ⟨by simp, by simp, ?_⟩
            intro rest hrest
            simp only [Option.some.injEq, Loaded.content.injEq] at hrest
            subst hrest
            obtain ⟨log1, h1⟩ := i3 rest0 hw
            exact ⟨log1, by rw [h1, List.append_assoc]⟩

/-- More reads allowed do not change what reading a file comes to. -/
theorem readWhole_mono (st : Storage) (fd : Int) (m : Nat) :
    ∀ (n off : Nat) (l : Loaded), readWhole st fd n off = some l →
      readWhole st fd (n + m) off = some l := by
  intro n
  induction n with
  | zero => intro off l h; simp [readWhole] at h
  | succ n ih =>
    intro off l h
    rw [Nat.add_right_comm]
    simp only [readWhole] at h ⊢
    cases hr : st.read fd off with
    | error code => simpa [hr] using h
    | data bs =>
      simp only [hr] at h ⊢
      by_cases he : bs.take 4096 = []
      · simpa [he] using h
      · simp only [he, if_false] at h ⊢
        cases hw : readWhole st fd n (off + (bs.take 4096).length) with
        | none => rw [hw] at h; simp at h
        | some l0 =>
          rw [hw] at h
          rw [ih _ l0 hw]
          exact h

theorem openAndRead_mono (st : Storage) (filename : String) (n m : Nat) (l : Loaded)
    (h : openAndRead st n filename = some l) : openAndRead st (n + m) filename = some l := by
  unfold openAndRead at h ⊢
  by_cases ho : st.open_result filename < 0
  · simpa [ho] using h
  · simp only [ho, if_false] at h ⊢
    exact readWhole_mono st _ m n 0 l h

/-- `QUV_EvalFile` returns and calls what the load of the file, told from the
storage alone, asks for. -/
theorem QUV_EvalFile_eq_spec (e : Engine) (st : Storage) (fuel : Nat) (filename : String)
    (flags : Int) :
    (QUV_EvalFile e st fuel filename flags).map (fun o => (o.ret, o.calls)) =
      (openAndRead st fuel filename).map (evalFileSpec e filename flags) := by
  by_cases ho : st.open_result filename < 0
  · have hne : st.open_result filename ≠ 0 := by omega
    simp [QUV_EvalFile, load_file, uv_fs_open, openAndRead, ho, hne, evalFileSpec]
  · obtain ⟨i1, i2, i3⟩ := load_file_loop_readWhole st (st.open_result filename) fuel
      dbuf_init [st.open_result filename]
    have hsz : dbuf_init.size = 0 := rfl
    rw [hsz] at i1 i2 i3
    simp only [openAndRead, ho, if_false]
    cases hw : readWhole st (st.open_result filename) fuel 0 with
    | none =>
      simp [QUV_EvalFile, load_file, uv_fs_open, ho, i1 hw]
    | some l =>
      cases l with
      | failed c =>
        obtain ⟨hc, d, log1, hl⟩ := i2 c hw
        have hload : load_file st fuel dbuf_init filename =
            some (c, (dbuf_putc d 0).2, log1) := by
          simp [load_file, uv_fs_open, ho, hl]
        have hne : c ≠ 0 := by omega
        rw [QUV_EvalFile_of_load e st fuel filename flags _ _ _ hload]
        simp [hne, evalFileSpec]
      | content rest =>
        obtain ⟨log1, hl⟩ := i3 rest hw
        have hload : load_file st fuel dbuf_init filename =
            some (0, { buf := rest ++ [0] }, log1) := by
          simp only [load_file, uv_fs_open, ho, if_false, hl]
          simp [dbuf_putc, dbuf_put, dbuf_init]
        rw [QUV_EvalFile_of_load e st fuel filename flags _ _ _ hload]
        by_cases hf : flags = -1
        · by_cases hd : e.JS_DetectModule (rest ++ [0]) (rest.length + 1) = true
          · simp [hf, hd, evalFileSpec, DynBuf.size]
          · simp [hf, hd, evalFileSpec, DynBuf.size]
        · simp [hf, evalFileSpec, DynBuf.size]

/-- C7: for every engine, storage, path and flags, `QUV_EvalFile` returns and
calls exactly what the load of the file, told from the storage alone, asks for,
whatever the bound on the reads.  So when it returns, it has thrown a
ReferenceError and returns `JS_EXCEPTION` without any call of the sniff or of
the engine's evaluation exactly when the storage answered the open or one of
the reads with an error; otherwise it returns what the engine's evaluation
returns on the bytes the storage delivered followed by one 0 byte, under these
flags: if `flags` is -1, module when the sniff reports module syntax and global
script when it does not; for every other `flags`, the caller's flags verbatim,
and the sniff is not called.  What it returns does not depend on the bound, and
it does return whenever the file ends (no read at or past some offset delivers
bytes). -/
theorem eval_file_reference_error_iff (e : Engine) (st : Storage) (filename : String)
    (flags : Int) :
    (∀ fuel, (QUV_EvalFile e st fuel filename flags).map (fun o => (o.ret, o.calls)) =
      (openAndRead st fuel filename).map (evalFileSpec e filename flags)) ∧
    (∀ fuel out, QUV_EvalFile e st fuel filename flags = some out →
      ((out.ret = .exception ∧ out.calls = [.throwReferenceError filename]) ↔
        ∃ c, openAndRead st fuel filename = some (.failed c))) ∧
    (∀ fuel out, QUV_EvalFile e st fuel filename flags = some out →
      ∀ bytes, openAndRead st fuel filename = some (.content bytes) →
        out.ret = e.JS_Eval (bytes ++ [0]) (bytes.length + 1) filename
          (if flags = -1 then
            (if e.JS_DetectModule (bytes ++ [0]) (bytes.length + 1) then JS_EVAL_TYPE_MODULE
              else JS_EVAL_TYPE_GLOBAL)
            else flags) ∧
        out.calls =
          (if flags = -1 then [.detectModule (bytes ++ [0]) (bytes.length + 1)] else []) ++
            [.eval (bytes ++ [0]) (bytes.length + 1) filename
              (if flags = -1 then
                (if e.JS_DetectModule (bytes ++ [0]) (bytes.length + 1)
                  then JS_EVAL_TYPE_MODULE else JS_EVAL_TYPE_GLOBAL)
                else flags)]) ∧
    (∀ fuel out, QUV_EvalFile e st fuel filename flags = some out → ∀ more,
      (QUV_EvalFile e st (fuel + more) filename flags).map (fun o => (o.ret, o.calls)) =
        some (out.ret, out.calls)) ∧
    (∀ bound, (∀ off, bound ≤ off → ∀ bs,
        st.read (uv_fs_open st filename) off = .data bs → bs = []) →
      ∀ fuel, bound + 1 ≤ fuel → ∃ out, QUV_EvalFile e st fuel filename flags = some out) := by
  have hspec := QUV_EvalFile_eq_spec e st
  have hsome : ∀ fuel out, QUV_EvalFile e st fuel filename flags = some out →
      ∃ l, openAndRead st fuel filename = some l ∧
        evalFileSpec e filename flags l = (out.ret, out.calls) := by
    intro fuel out hout
    have h := hspec fuel filename flags
    rw [hout] at h
    cases hl : openAndRead st fuel filename with
    | none => rw [hl] at h; simp at h
    | some l =>
      rw [hl] at h
      simp only [Option.map_some', Option.some.injEq] at h
      exact ⟨l, rfl, h.symm⟩
  refine ⟨fun fuel => hspec fuel filename flags, ?_, ?_, ?_, ?_⟩
  · intro fuel out hout
    obtain ⟨l, hl, hev⟩ := hsome fuel out hout
    rw [hl]
    cases l with
    | failed c =>
      simp only [evalFileSpec, Prod.mk.injEq] at hev
      constructor
      · intro _; exact ⟨c, rfl⟩
      · intro _; exact ⟨hev.1.symm, hev.2.symm⟩
    | content bytes =>
      constructor
      · rintro ⟨_, hc⟩
        rw [hc] at hev
        by_cases hf : flags = -1
        · by_cases hd : e.JS_DetectModule (bytes ++ [0]) (bytes.length + 1) = true
          · simp [evalFileSpec, hf, hd] at hev
          · simp [evalFileSpec, hf, hd] at hev
        · simp [evalFileSpec, hf] at hev
      · rintro ⟨c, hc⟩
        simp at hc
  · intro fuel out hout bytes hb
    obtain ⟨l, hl, hev⟩ := hsome fuel out hout
    rw [hb] at hl
    simp only [Option.some.injEq] at hl
    subst hl
    by_cases hf : flags = -1
    · cases hd : e.JS_DetectModule (bytes ++ [0]) (bytes.length + 1) <;>
        simp [evalFileSpec, hf, hd] at hev <;> simp [hf, hd, hev.1.symm, hev.2.symm]
    · simp only [evalFileSpec, hf, if_false, Prod.mk.injEq] at hev
      simp [hf, hev.1.symm, hev.2.symm]
  · intro fuel out hout more
    obtain ⟨l, hl, hev⟩ := hsome fuel out hout
    rw [hspec (fuel + more) filename flags, openAndRead_mono st filename fuel more l hl]
    simp [hev]
  · intro bound hfin fuel hfuel
    by_cases hopen : uv_fs_open st filename < 0
    · have hne : uv_fs_open st filename ≠ 0 := by omega
      exact ⟨_, by simp [QUV_EvalFile, load_file, hopen, hne]; rfl⟩
    · obtain ⟨res, hres⟩ := load_file_loop_ends st (uv_fs_open st filename) bound hfin fuel
        dbuf_init [uv_fs_open st filename] (by simp [dbuf_init, DynBuf.size]; omega)
      have hload : load_file st fuel dbuf_init filename =
          some (res.1, (dbuf_putc res.2.1 0).2, res.2.2) := by
        simp [load_file, hopen, hres]
      exact ⟨_, QUV_EvalFile_of_load e st fuel filename flags _ _ _ hload⟩

/-- C7, two instances: a path that cannot be opened gives a ReferenceError with
no call of the sniff or the evaluation; a two-byte file read one byte at a time
on which the sniff reports module syntax is evaluated in module mode, with the
sentinel byte and the length 3. -/
theorem eval_file_reference_error_iff_witness :
    (QUV_EvalFile ⟨fun _ _ => true, fun _ _ _ _ => .value 7⟩
        (chunkedStorage [104, 105] 1 "gone.js") 1 "gone.js" (-1)).map
      (fun o => (o.ret, o.calls)) =
      some (.exception, [.throwReferenceError "gone.js"]) ∧
    (QUV_EvalFile ⟨fun _ _ => true, fun _ _ _ _ => .value 7⟩
        (chunkedStorage [104, 105] 1 "gone.js") 3 "a.js" (-1)).map
      (fun o => (o.ret, o.calls)) =
      some (.value 7, [.detectModule [104, 105, 0] 3, .eval [104, 105, 0] 3 "a.js" 1]) :=
  ⟨(eval_file_reference_error_iff ⟨fun _ _ => true, fun _ _ _ _ => .value 7⟩
      (chunkedStorage [104, 105] 1 "gone.js") "gone.js" (-1)).1 1,
   (eval_file_reference_error_iff ⟨fun _ _ => true, fun _ _ _ _ => .value 7⟩
      (chunkedStorage [104, 105] 1 "gone.js") "a.js" (-1)).1 3⟩

/-! ## The instances the interface can reach -/

theorem uv__check_cb_idle (qrt : QUVRuntime) :
    (uv__check_cb qrt).idle.ref = qrt.idle.ref ∧
    (uv__check_cb qrt).idle.closing = qrt.idle.closing ∧
    (uv__check_cb qrt).idle.closed = qrt.idle.closed ∧
    (uv__check_cb qrt).idle.queued = qrt.idle.queued := by
  obtain ⟨_, _, h3, _⟩ := execute_pending_jobs_frame (weightList qrt.rt.job_list + 1) qrt
  unfold uv__check_cb uv__maybe_idle
  split <;> simp [h3, uv_handle_start, uv_handle_stop]

theorem uv__finish_close_idle (h : uv_handle_t) (hc : h.closing = false) :
    uv__finish_close h = h := by
  simp [uv__finish_close, hc]

/-- A fresh instance is usable. -/
theorem Usable_NewRuntime2 (is_worker : Bool) (boot_jobs : List Job) :
    Usable (QUV_NewRuntime2 is_worker boot_jobs) := by
  simp [Usable, QUV_NewRuntime2, uv_handle_init, uv_async_init]

/-- `QUV_Stop` keeps an instance usable. -/
theorem Usable_Stop (qrt : QUVRuntime) (hu : Usable qrt) : Usable (QUV_Stop qrt) := by
  obtain ⟨_, s2, s3, s4, s5, s6, _, _⟩ := QUV_Stop_frame qrt
  unfold Usable at hu ⊢
  rw [s2, s3, s4, s5, s6]; exact hu

/-- The prologue of `QUV_Run` keeps an instance usable. -/
theorem Usable_Run_prepare (qrt : QUVRuntime) (hu : Usable qrt) :
    Usable (QUV_Run_prepare qrt) := by
  obtain ⟨h1, h2, h3, h4, h5, h6, h7⟩ := hu
  obtain ⟨g1, g2, g3, g4, g5, g6, g7, g8, g9, g10, g11, g12, g13⟩ := QUV_Run_prepare_frame qrt
  refine ⟨by rw [g11, h1], by rw [g12, h2], by rw [g7, h3], by rw [g6, h4], by rw [g1, h5],
    by rw [g13, h6], ?_⟩
  intro hw
  rw [g3] at hw
  rw [g8, hw, h7 hw]; rfl

/-- One loop iteration keeps what makes an instance usable, but for the stop
request. -/
theorem uv_run_after_poll_usable (qrt : QUVRuntime)
    (h1 : qrt.check.closing = false) (h2 : qrt.idle.closing = false)
    (h3 : qrt.stop.closing = false) (h4 : qrt.stop.active = true) (h6 : qrt.idle.ref = true)
    (h7 : qrt.is_worker = true → qrt.stop.ref = true) :
    (uv_run_after_poll qrt).check.closing = false ∧
    (uv_run_after_poll qrt).idle.closing = false ∧
    (uv_run_after_poll qrt).stop.closing = false ∧
    (uv_run_after_poll qrt).stop.active = true ∧
    (uv_run_after_poll qrt).idle.ref = true ∧
    ((uv_run_after_poll qrt).is_worker = true → (uv_run_after_poll qrt).stop.ref = true) := by
  have hd : (uv__io_poll_dispatch qrt).check = qrt.check ∧
      (uv__io_poll_dispatch qrt).idle = qrt.idle ∧
      (uv__io_poll_dispatch qrt).stop = qrt.stop ∧
      (uv__io_poll_dispatch qrt).is_worker = qrt.is_worker := by
    unfold uv__io_poll_dispatch
    cases qrt.pending <;> cases qrt.stop.active <;> simp [uv__stop]
  obtain ⟨d1, d2, d3, d4⟩ := hd
  have hc : (uv__run_check (uv__io_poll_dispatch qrt)).check = qrt.check ∧
      (uv__run_check (uv__io_poll_dispatch qrt)).stop = qrt.stop ∧
      (uv__run_check (uv__io_poll_dispatch qrt)).is_worker = qrt.is_worker ∧
      (uv__run_check (uv__io_poll_dispatch qrt)).idle.ref = qrt.idle.ref ∧
      (uv__run_check (uv__io_poll_dispatch qrt)).idle.closing = qrt.idle.closing := by
    obtain ⟨_, f2, f3, _, f5, _, _⟩ := uv__run_check_frame (uv__io_poll_dispatch qrt)
    refine ⟨by rw [f2, d1], by rw [f3, d3], by rw [f5, d4], ?_, ?_⟩
    · unfold uv__run_check
      split
      · rw [(uv__check_cb_idle _).1, d2]
      · rw [d2]
    · unfold uv__run_check
      split
      · rw [(uv__check_cb_idle _).2.1, d2]
      · rw [d2]
  obtain ⟨c1, c2, c3, c4, c5⟩ := hc
  simp only [uv_run_after_poll, uv__run_closing_handles, c1, c2, c3]
  rw [uv__finish_close_idle qrt.check h1, uv__finish_close_idle qrt.stop h3,
    uv__finish_close_idle _ (by rw [c5]; exact h2)]
  exact ⟨h1, by rw [c5]; exact h2, h3, h4, by rw [c4]; exact h6, h7⟩

/-- Whatever a run of the loop comes to, returned or parked, the instance is
usable again. -/
theorem Usable_uv_run_default : ∀ (n : Nat) (qrt : QUVRuntime) (r : RunResult),
    qrt.check.closing = false → qrt.idle.closing = false → qrt.stop.closing = false →
    qrt.stop.active = true → qrt.idle.ref = true →
    (qrt.is_worker = true → qrt.stop.ref = true) →
    uv_run_default n qrt = some r → Usable r.qrt := by
  intro n
  induction n with
  | zero => intro qrt r _ _ _ _ _ _ h; simp [uv_run_default] at h
  | succ n ih =>
    intro qrt r h1 h2 h3 h4 h6 h7 h
    by_cases hc : (uv__loop_alive qrt && !qrt.loop.stop_flag) = true
    · have hsf : qrt.loop.stop_flag = false := by
        cases hs : qrt.loop.stop_flag
        · rfl
        · simp [hs] at hc
      simp only [uv_run_default, hc, if_true, uv__run_idle_eq] at h
      by_cases hb : uv__io_poll_blocks qrt (uv_backend_timeout qrt) = true
      · simp only [hb, if_true, Option.some.injEq] at h
        subst h
        exact ⟨h1, h2, h3, h4, hsf, h6, h7⟩
      · simp only [hb, if_false] at h
        obtain ⟨a1, a2, a3, a4, a6, a7⟩ := uv_run_after_poll_usable qrt h1 h2 h3 h4 h6 h7
        exact ih _ r a1 a2 a3 a4 a6 a7 h
    · simp only [Bool.not_eq_true] at hc
      simp only [uv_run_default, hc, Bool.false_eq_true, if_false, Option.some.injEq] at h
      subst h
      exact ⟨h1, h2, h3, h4, rfl, h6, h7⟩

/-- `QUV_Run` keeps an instance usable. -/
theorem Usable_Run (fuel : Nat) (qrt : QUVRuntime) (r : RunResult) (hu : Usable qrt)
    (h : QUV_Run fuel qrt = some r) : Usable r.qrt := by
  obtain ⟨h1, h2, h3, h4, _, h6, h7⟩ := Usable_Run_prepare qrt hu
  exact Usable_uv_run_default fuel _ r h1 h2 h3 h4 h6 h7 h

end Quv
